import Mathlib

/-!
# pi-mmc3416: the MMC3416 magnetometer driver

A shallow embedding of `i2c_mmc3416.c` (with the decoding done in `getmmc3416.c`)
and theorems about it.

* The I2C file descriptor `i2cfd` is an abstract transport `I2C σ`: `write(2)` and
  `read(2)` on the descriptor and the `delay` helper, acting on a device state `σ`.
* `exit(-1)` is an `Outcome.exit`; a normal `return` is an `Outcome.ret`.
* A `char` holds a byte `0..255`; where the C code promotes a `char` to `int`
  the signedness of plain `char` (implementation-defined) is a parameter.
* `float` values are taken in an ordered field. The measurement code and `get_heading`
  are first given in exact arithmetic; `get_heading_float` is `get_heading` in the float
  arithmetic of the C code: roundings to `float`, division by zero and NaN.
-/

namespace MMC3416

/-! ## Register addresses (`mmc3416.h`) -/

def MMC3416_XOUT_LSB_ADDR : Nat := 0x00
def MMC3416_STATUS_ADDR : Nat := 0x06
def MMC3416_CTL0_ADDR : Nat := 0x07
def MMC3416_CTL1_ADDR : Nat := 0x08
def MMC3416_PRODUCT_ID_ADDR : Nat := 0x20

/-! ## Transport -/

/-- Result of a driver call: a normal `return v`, or the process ending in `exit(code)`. -/
inductive Outcome (ρ : Type) where
  | ret (v : ρ)
  | exit (code : Int)
  deriving DecidableEq, Repr

/-- The system calls the driver makes on `i2cfd`.
`write s bytes` is `write(i2cfd, buf, len)`: the new device state and the returned count.
`read s len` is `read(i2cfd, buf, len)`: the new device state and the bytes delivered
(fewer than `len` on a short or failed read).
`delay s msec` is the `delay(msec)` helper. -/
structure I2C (σ : Type) where
  write : σ → List Nat → σ × Int
  read : σ → Nat → σ × List Nat
  delay : σ → Nat → σ

/-- `read(i2cfd, &c, 1)` into one `char` that holds `c`: the byte is replaced when one
is delivered; the count returned is what the caller compares with 1. -/
def read_char {σ : Type} (bus : I2C σ) (s : σ) (c : Nat) : σ × Nat × Int :=
  match bus.read s 1 with
  | (s1, []) => (s1, c, 0)
  | (s1, b :: _) => (s1, b % 256, 1)

/-- `read(i2cfd, buf, len)` into a `char` array holding `buf`: the bytes delivered
(at most `len`) overwrite the front of the array. -/
def read_buf {σ : Type} (bus : I2C σ) (s : σ) (buf : List Nat) (len : Nat) :
    σ × List Nat × Int :=
  match bus.read s len with
  | (s1, got) =>
    (s1, ((got.take len).map (fun b => b % 256)) ++ buf.drop (got.take len).length,
      ((got.take len).length : Int))

/-! ## `set_cmfreq` and `mmc3416_info` -/

/-- Lines 367-386 of `set_cmfreq`: the new Control0 byte built from the byte read.
`regdata &= ~(1 << k)` keeps the low byte of the `int` result, `regdata & (0xFF ^ (1 << k))`. -/
def cmfreq_regdata (regdata : Nat) (new_mode : Int) : Nat :=
  let regdata := regdata ||| (1 <<< 0)
  let regdata := regdata ||| (1 <<< 1)
  let regdata :=
    if new_mode = 0 then (regdata &&& (0xFF ^^^ (1 <<< 2))) &&& (0xFF ^^^ (1 <<< 3))
    else if new_mode = 1 then (regdata ||| (1 <<< 2)) &&& (0xFF ^^^ (1 <<< 3))
    else if new_mode = 2 then (regdata &&& (0xFF ^^^ (1 <<< 2))) ||| (1 <<< 3)
    else if new_mode = 3 then (regdata ||| (1 <<< 2)) ||| (1 <<< 3)
    else regdata
  regdata ||| (1 <<< 5)

/-- The frequency mode in bits 2-3 of a Control0 byte, `(regdata >> 2) & 0x03`.
(For a signed `char` the shift is arithmetic and the mask gives the same two bits.) -/
def freq_mode (regdata : Nat) : Nat := (regdata >>> 2) &&& 0x03

/-- The function `set_cmfreq(new_mode)`. -/
def set_cmfreq {σ : Type} (bus : I2C σ) (new_mode : Int) (s : σ) : σ × Outcome Int :=
  let reg := MMC3416_CTL0_ADDR
  let regdata := 0
  match bus.write s [reg] with
  | (s, n) =>
  if n ≠ 1 then (s, Outcome.exit (-1)) else
  match read_char bus s regdata with
  | (s, regdata, n) =>
  if n ≠ 1 then (s, Outcome.exit (-1)) else
  let current_mode : Int := (freq_mode regdata : Nat)
  if new_mode = current_mode then (s, Outcome.ret 0) else
  let regdata := cmfreq_regdata regdata new_mode
  match bus.write s [reg, regdata] with
  | (s, n) =>
  if n ≠ 2 then (s, Outcome.ret (-1)) else
  match bus.write s [reg] with
  | (s, _) =>
  let regdata := 0
  match read_char bus s regdata with
  | (s, regdata, _) =>
  let current_mode : Int := (freq_mode regdata : Nat)
  if new_mode ≠ current_mode then (s, Outcome.ret (-1)) else (s, Outcome.ret 0)

/-- The struct `mmc3416inf`. -/
structure mmc3416inf where
  prd_id : Nat
  ctl_0_mode : Nat
  ctl_1_mode : Nat
  deriving DecidableEq, Repr

/-- The function `get_prdid()`: failures are only reported, the buffer starts at 0. -/
def get_prdid {σ : Type} (bus : I2C σ) (s : σ) : σ × Nat :=
  let reg := MMC3416_PRODUCT_ID_ADDR
  let buf := 0
  match bus.write s [reg] with
  | (s, _) =>
  match read_char bus s buf with
  | (s, buf, _) => (s, buf)

/-- The function `mmc3416_info(&mmc3416i)`. -/
def mmc3416_info {σ : Type} (bus : I2C σ) (mmc3416i : mmc3416inf) (s : σ) :
    σ × Outcome mmc3416inf :=
  match get_prdid bus s with
  | (s, id) =>
  let mmc3416i := { mmc3416i with prd_id := id }
  match bus.write s [MMC3416_CTL0_ADDR] with
  | (s, n) =>
  if n ≠ 1 then (s, Outcome.exit (-1)) else
  match read_char bus s mmc3416i.ctl_0_mode with
  | (s, c0, n) =>
  if n ≠ 1 then (s, Outcome.exit (-1)) else
  let mmc3416i := { mmc3416i with ctl_0_mode := c0 }
  match bus.write s [MMC3416_CTL1_ADDR] with
  | (s, n) =>
  if n ≠ 1 then (s, Outcome.exit (-1)) else
  match read_char bus s mmc3416i.ctl_1_mode with
  | (s, c1, n) =>
  if n ≠ 1 then (s, Outcome.exit (-1)) else
  (s, Outcome.ret { mmc3416i with ctl_1_mode := c1 })

/-- The decoding in `main` (`getmmc3416.c`, "-i"):
`cmfreq_mode = ((mmc3416i.ctl_0_mode >> 2) & 0x03)`. -/
def info_cmfreq_mode (mmc3416i : mmc3416inf) : Nat := (mmc3416i.ctl_0_mode >>> 2) &&& 0x03

/-! ## Mock transports -/

/-- A register-file device: a register image and the register pointer. -/
structure RegFile where
  regs : Nat → Nat
  ptr : Nat

/-- The register-file transport: a one-byte write selects the register pointer, a
register+data write stores the data byte, a read delivers the image from the pointer on.
Every operation succeeds. -/
def regFile : I2C RegFile where
  write := fun s bytes =>
    match bytes with
    | [] => (s, 0)
    | [r] => ({ s with ptr := r }, 1)
    | r :: d :: rest => ({ regs := Function.update s.regs r d, ptr := r }, (rest.length + 2 : Nat))
  read := fun s len => (s, (List.range len).map (fun k => s.regs (s.ptr + k)))
  delay := fun s _ => s

/-- One call on the transport, as recorded by a call counter. -/
inductive BusOp where
  | write (bytes : List Nat) (ret : Int)
  | read (len : Nat) (got : List Nat)
  | delay (msec : Nat)
  deriving DecidableEq, Repr

/-- A transport with a call log: every call is appended to the log. -/
def logged {σ : Type} (bus : I2C σ) : I2C (σ × List BusOp) where
  write := fun s bytes =>
    (((bus.write s.1 bytes).1, s.2 ++ [BusOp.write bytes (bus.write s.1 bytes).2]),
      (bus.write s.1 bytes).2)
  read := fun s len =>
    (((bus.read s.1 len).1, s.2 ++ [BusOp.read len (bus.read s.1 len).2]),
      (bus.read s.1 len).2)
  delay := fun s msec => (bus.delay s.1 msec, s.2 ++ [BusOp.delay msec])

/-- Whether a logged call is a `writeRegister` call: a write of a register address
followed by data (a one-byte write only selects the register for a read). -/
def BusOp.isRegisterWrite : BusOp → Bool
  | BusOp.write bytes _ => decide (2 ≤ bytes.length)
  | _ => false

/-- The number of `writeRegister` calls in a log. -/
def registerWrites (log : List BusOp) : Nat := log.countP BusOp.isRegisterWrite

/-- A scripted transport: the return values of the successive `write` calls (a write past
the end of the script accepts all its bytes), the bytes delivered by the successive
`read` calls (a read past the end delivers nothing), and the milliseconds slept. -/
structure Script where
  writes : List Int
  reads : List (List Nat)
  slept : Nat
  deriving DecidableEq, Repr

/-- The scripted transport. -/
def script : I2C Script where
  write := fun s bytes =>
    match s.writes with
    | [] => (s, (bytes.length : Int))
    | r :: rest => ({ s with writes := rest }, r)
  read := fun s _ =>
    match s.reads with
    | [] => (s, [])
    | r :: rest => ({ s with reads := rest }, r)
  delay := fun s msec => { s with slept := s.slept + msec }

/-! ## Measurement: `mmc3416_set`, `mmc3416_reset`, `mmc3416_read`, `mmc3416_init` -/

/-- The struct `mmc3416data`. -/
structure mmc3416data (α : Type) where
  X : α
  Y : α
  Z : α
  deriving DecidableEq, Repr

/-- A C array of three elements (`offset[3]`, `ds1[3]`, `measured_data[3]`). -/
structure Arr3 (α : Type) where
  e0 : α
  e1 : α
  e2 : α
  deriving DecidableEq, Repr

/-- The element `a[i]`, for `i` in `0..2`. -/
def Arr3.get {α : Type} (a : Arr3 α) (i : Nat) : α :=
  match i with
  | 0 => a.e0
  | 1 => a.e1
  | _ => a.e2

/-- The assignment `a[i] = v`, for `i` in `0..2`. -/
def Arr3.set {α : Type} (a : Arr3 α) (i : Nat) (v : α) : Arr3 α :=
  match i with
  | 0 => { a with e0 := v }
  | 1 => { a with e1 := v }
  | _ => { a with e2 := v }

/-- The 32-bit two's-complement image of a `char` holding byte `b` after promotion to
`int`: sign-extended when plain `char` is signed and the byte is `0x80` or more. -/
def char_to_int (signedChar : Bool) (b : Nat) : Nat :=
  if signedChar && decide (128 ≤ b) then b + 0xFFFFFF00 else b

/-- The value `(uint16_t)(msb << 8 | lsb)` for two `char` operands. -/
def combine_bytes (signedChar : Bool) (msb lsb : Nat) : Nat :=
  ((((char_to_int signedChar msb) <<< 8) % 2 ^ 32) ||| char_to_int signedChar lsb) % 2 ^ 16

/-- Lines 482-485 of `mmc3416_read`: `measured_data` from the buffer `measure`. -/
def measured_data (signedChar : Bool) (measure : List Nat) : Arr3 Nat :=
  { e0 := combine_bytes signedChar (measure.getD 1 0) (measure.getD 0 0)
    e1 := combine_bytes signedChar (measure.getD 3 0) (measure.getD 2 0)
    e2 := combine_bytes signedChar (measure.getD 5 0) (measure.getD 4 0) }

/-- The function `mmc3416_set()`. -/
def mmc3416_set {σ : Type} (bus : I2C σ) (s : σ) : σ × Outcome Unit :=
  match bus.write s [MMC3416_CTL0_ADDR, 0x80] with
  | (s, n) =>
  if n ≠ 2 then (s, Outcome.exit (-1)) else
  let s := bus.delay s 60
  match bus.write s [MMC3416_CTL0_ADDR, 0x20] with
  | (s, n) =>
  if n ≠ 2 then (s, Outcome.exit (-1)) else (s, Outcome.ret ())

/-- The function `mmc3416_reset()`. -/
def mmc3416_reset {σ : Type} (bus : I2C σ) (s : σ) : σ × Outcome Unit :=
  match bus.write s [MMC3416_CTL0_ADDR, 0x80] with
  | (s, n) =>
  if n ≠ 2 then (s, Outcome.exit (-1)) else
  let s := bus.delay s 60
  match bus.write s [MMC3416_CTL0_ADDR, 0x40] with
  | (s, n) =>
  if n ≠ 2 then (s, Outcome.exit (-1)) else (s, Outcome.ret ())

/-- The `while(1)` loop of `mmc3416_read` polling the Status register, with `fuel`
bounding the number of polls (`none`: not ready within `fuel` polls). `regdata` is kept
across iterations; bus failures are only reported. -/
def poll_status {σ : Type} (bus : I2C σ) : Nat → Nat → σ → Option σ
  | 0, _, _ => none
  | fuel + 1, regdata, s =>
    match bus.write s [MMC3416_STATUS_ADDR] with
    | (s, _) =>
    match read_char bus s regdata with
    | (s, regdata, _) =>
    if regdata &&& 0x01 = 1 then some s
    else poll_status bus fuel regdata (bus.delay s 10)

/-- The function `mmc3416_read(mmc3416d)` with the global `offset`: the device state,
the struct contents and the return value (`none`: the poll loop ran out of fuel). -/
def mmc3416_read {σ α : Type} [LinearOrderedField α] (signedChar : Bool) (bus : I2C σ)
    (fuel : Nat) (offset : Arr3 α) (mmc3416d : mmc3416data α) (s : σ) :
    Option (σ × mmc3416data α × Int) :=
  match bus.write s [MMC3416_CTL0_ADDR, 0x01] with
  | (s, n) =>
  if n ≠ 2 then some (s, mmc3416d, -1) else
  match poll_status bus fuel 0 s with
  | none => none
  | some s =>
  match bus.write s [MMC3416_XOUT_LSB_ADDR] with
  | (s, _) =>
  match read_buf bus s [0, 0, 0, 0, 0, 0] 6 with
  | (s, measure, _) =>
  let md := measured_data signedChar measure
  some (s,
    { X := 0.48828125 * ((md.get 0 : Nat) : α) - offset.get 0
      Y := 0.48828125 * ((md.get 1 : Nat) : α) - offset.get 1
      Z := 0.48828125 * ((md.get 2 : Nat) : α) - offset.get 2 }, 0)

/-- The loop of `mmc3416_init`, lines 156-159: `offset[i] = (ds1[i]+ds2[i])/2`. -/
def init_offset {α : Type} [LinearOrderedField α] (ds1 ds2 offset : Arr3 α) : Arr3 α :=
  (List.range 3).foldl (fun offset i => offset.set i ((ds1.get i + ds2.get i) / 2)) offset

/-- The function `mmc3416_init(mmc3416d)` with the global `offset`: the device state and,
when the process did not exit, the new `offset` and struct contents (`none`: a poll loop
ran out of fuel). The return value of `mmc3416_read` is not looked at. -/
def mmc3416_init {σ α : Type} [LinearOrderedField α] (signedChar : Bool) (bus : I2C σ)
    (fuel : Nat) (offset : Arr3 α) (mmc3416d : mmc3416data α) (s : σ) :
    Option (σ × Outcome (Arr3 α × mmc3416data α)) :=
  let ds1 : Arr3 α := { e0 := 0, e1 := 0, e2 := 0 }
  let ds2 : Arr3 α := { e0 := 0, e1 := 0, e2 := 0 }
  let offset := ((offset.set 0 0).set 1 0).set 2 0
  match mmc3416_set bus s with
  | (s, Outcome.exit c) => some (s, Outcome.exit c)
  | (s, Outcome.ret _) =>
  let s := bus.delay s 10
  match mmc3416_read signedChar bus fuel offset mmc3416d s with
  | none => none
  | some (s, mmc3416d, _) =>
  let ds1 := ((ds1.set 0 mmc3416d.X).set 1 mmc3416d.Y).set 2 mmc3416d.Z
  match mmc3416_reset bus s with
  | (s, Outcome.exit c) => some (s, Outcome.exit c)
  | (s, Outcome.ret _) =>
  let s := bus.delay s 10
  match mmc3416_read signedChar bus fuel offset mmc3416d s with
  | none => none
  | some (s, mmc3416d, _) =>
  let ds2 := ((ds2.set 0 mmc3416d.X).set 1 mmc3416d.Y).set 2 mmc3416d.Z
  let offset := init_offset ds1 ds2 offset
  match mmc3416_set bus s with
  | (s, Outcome.exit c) => some (s, Outcome.exit c)
  | (s, Outcome.ret _) => some (s, Outcome.ret (offset, mmc3416d))

/-- The bus transactions of `mmc3416_read`, lines 431-485, and the `measured_data` they
leave: the inner `none` is the `return(-1)` after a refused measurement request, the
outer `none` a poll loop out of fuel. -/
def read_raw {σ : Type} (signedChar : Bool) (bus : I2C σ) (fuel : Nat) (s : σ) :
    Option (σ × Option (Arr3 Nat)) :=
  match bus.write s [MMC3416_CTL0_ADDR, 0x01] with
  | (s, n) =>
  if n ≠ 2 then some (s, none) else
  match poll_status bus fuel 0 s with
  | none => none
  | some s =>
  match bus.write s [MMC3416_XOUT_LSB_ADDR] with
  | (s, _) =>
  match read_buf bus s [0, 0, 0, 0, 0, 0] 6 with
  | (s, measure, _) => some (s, some (measured_data signedChar measure))

/-- One pass of the bus traffic of `mmc3416_init` from device state `s` to `s5`: SET is
accepted, the read after it leaves the raw values `r1`, RESET is accepted, the read after
it leaves `r2`, and the closing SET is accepted. -/
def InitRun {σ : Type} (signedChar : Bool) (bus : I2C σ) (fuel : Nat) (s : σ)
    (r1 r2 : Arr3 Nat) (s5 : σ) : Prop :=
  ∃ s1 s2 s3 s4 : σ,
    mmc3416_set bus s = (s1, Outcome.ret ()) ∧
    read_raw signedChar bus fuel (bus.delay s1 10) = some (s2, some r1) ∧
    mmc3416_reset bus s2 = (s3, Outcome.ret ()) ∧
    read_raw signedChar bus fuel (bus.delay s3 10) = some (s4, some r2) ∧
    mmc3416_set bus s4 = (s5, Outcome.ret ())

/-- The physical value `0.48828125 * raw[i] - offset[i]` on the three axes. -/
def milligauss {α : Type} [LinearOrderedField α] (raw : Arr3 Nat) (offset : Arr3 α) :
    mmc3416data α :=
  { X := 0.48828125 * (raw.e0 : α) - offset.e0
    Y := 0.48828125 * (raw.e1 : α) - offset.e1
    Z := 0.48828125 * (raw.e2 : α) - offset.e2 }

/-- A scripted sensor for two passes of `mmc3416_init`: every write is accepted, every
Status poll reports data-ready, and the burst reads deliver `00 08 10 00 20 00` after SET
and `00 04 30 00 40 00` after RESET, in both passes. -/
def initScript : Script :=
  { writes := []
    reads := [[1], [0x00, 0x08, 0x10, 0x00, 0x20, 0x00], [1], [0x00, 0x04, 0x30, 0x00, 0x40, 0x00],
              [1], [0x00, 0x08, 0x10, 0x00, 0x20, 0x00], [1], [0x00, 0x04, 0x30, 0x00, 0x40, 0x00]]
    slept := 0 }

/-- The scripted sensor after the first pass of `mmc3416_init`. -/
def initScript5 : Script :=
  { writes := []
    reads := [[1], [0x00, 0x08, 0x10, 0x00, 0x20, 0x00], [1], [0x00, 0x04, 0x30, 0x00, 0x40, 0x00]]
    slept := 200 }

/-- The scripted sensor after the second pass of `mmc3416_init`. -/
def initScript10 : Script := { writes := [], reads := [], slept := 400 }

/-! ## Heading -/

/-- The function `get_heading(mmc3416d)` with the global `declination`, in exact
arithmetic; `atan` is the C library arctangent. No operation rounds, and a quotient `x / 0`
is the field's `0`: for `X ≠ 0` this is `get_heading_float` without rounding
(`get_heading_float_exact`), and the float behaviour, with the case `X = 0`, is
`get_heading_float`. -/
def get_heading {α : Type} [LinearOrderedField α] (atan : α → α) (declination : α)
    (mmc3416d : mmc3416data α) : α :=
  let deg : α :=
    if mmc3416d.X < 0 then
      if mmc3416d.Y > 0 then
        let temp0 := mmc3416d.Y
        let temp1 := -mmc3416d.X
        90 - atan (temp0 / temp1) * (180 / 3.14159)
      else
        let temp0 := -mmc3416d.Y
        let temp1 := -mmc3416d.X
        90 + atan (temp0 / temp1) * (180 / 3.14159)
    else
      if mmc3416d.Y < 0 then
        let temp0 := -mmc3416d.Y
        let temp1 := mmc3416d.X
        270 - atan (temp0 / temp1) * (180 / 3.14159)
      else
        let temp0 := mmc3416d.Y
        let temp1 := mmc3416d.X
        270 + atan (temp0 / temp1) * (180 / 3.14159)
  let deg := deg + declination
  if declination > 0 then
    if deg > 360 then deg - 360 else deg
  else
    if deg < 0 then deg + 360 else deg

/-- Lines 511-534 of `get_heading` in exact arithmetic: the base heading `deg` of the
quadrant formula, before the declination is added. The float held in `deg` is
`quadrant_float`. -/
def quadrant_deg {α : Type} [LinearOrderedField α] (atan : α → α)
    (mmc3416d : mmc3416data α) : α :=
  if mmc3416d.X < 0 then
    if mmc3416d.Y > 0 then
      let temp0 := mmc3416d.Y
      let temp1 := -mmc3416d.X
      90 - atan (temp0 / temp1) * (180 / 3.14159)
    else
      let temp0 := -mmc3416d.Y
      let temp1 := -mmc3416d.X
      90 + atan (temp0 / temp1) * (180 / 3.14159)
  else
    if mmc3416d.Y < 0 then
      let temp0 := -mmc3416d.Y
      let temp1 := mmc3416d.X
      270 - atan (temp0 / temp1) * (180 / 3.14159)
    else
      let temp0 := mmc3416d.Y
      let temp1 := mmc3416d.X
      270 + atan (temp0 / temp1) * (180 / 3.14159)

/-! ### Float arithmetic of `get_heading`

The definitions above carry out `get_heading` in exact arithmetic. The C function works in
IEEE arithmetic: `temp0 / temp1` is a `float` division (a zero divisor gives an infinity or
NaN), `atan(..) * (180 / 3.14159)` and the addition to `90` or `270` are `double`
operations whose result is rounded when it is stored into the `float deg`, and
`deg += declination`, `deg -= 360`, `deg += 360` round to `float`. The definitions below
model these steps; a finite value is the real number it denotes and NaN is `none`. -/

/-- Rounding of a number to the nearest integer, a tie going to the even neighbour. -/
def round_half_even {α : Type} [LinearOrderedField α] [FloorRing α] (t : α) : ℤ :=
  let f := ⌊t⌋
  let r := t - f
  if r < 1 / 2 then f else if 1 / 2 < r then f + 1 else if f % 2 = 0 then f else f + 1

/-- The binary exponent of the binary32 value nearest to `x`: `⌊log₂ |x|⌋`, and `-126` in
the subnormal range. -/
def float32_exp {α : Type} [LinearOrderedField α] [FloorRing α] (x : α) : ℤ :=
  max (Int.log 2 |x|) (-126)

/-- IEEE 754 round-to-nearest-even of a real number to binary32 (the C type `float`): the
nearest multiple of `2 ^ (e - 23)` for the exponent `e` of `x`. Overflow to an infinity
(at `2 ^ 128`) is left to the caller, see `float32_div`. -/
def float32_round {α : Type} [LinearOrderedField α] [FloorRing α] (x : α) : α :=
  let e := float32_exp x
  (round_half_even (x / 2 ^ (e - 23)) : α) * 2 ^ (e - 23)

/-- The finite binary32 values: `m * 2 ^ e` with a 24-bit significand `m` and an exponent
`e` from `-149` to `104`. -/
def IsBinary32 {α : Type} [LinearOrderedField α] (x : α) : Prop :=
  ∃ m e : ℤ, |m| < 2 ^ 24 ∧ -149 ≤ e ∧ e ≤ 104 ∧ x = (m : α) * 2 ^ e

/-- What the theorems ask of a rounding to `float`: it is monotone and leaves every
binary32 value unchanged. IEEE rounding has both properties wherever it does not
overflow. -/
def Rounding {α : Type} [LinearOrderedField α] (rnd : α → α) : Prop :=
  Monotone rnd ∧ ∀ x, IsBinary32 x → rnd x = x

/-- The value of the float quotient `temp0 / temp1`: a finite number, `+inf`, `-inf` or
NaN. -/
inductive FQuot (α : Type) where
  | fin (q : α)
  | pinf
  | ninf
  | nan

/-- The floating-point operations `get_heading` performs. -/
structure FloatEnv (α : Type) where
  /-- The `float` that a division by a non-zero `float` yields, given the exact quotient:
  the rounded quotient, or an infinity on overflow. -/
  div : α → FQuot α
  /-- The `double` value of `atan(q) * (180 / 3.14159)` for the quotient `q`; `none` is
  NaN. -/
  angle : FQuot α → Option α
  /-- The `double` value `90 - a`, `90 + a`, `270 - a` or `270 + a` as it is stored into
  the `float deg`, given the exact difference or sum. -/
  store : α → α
  /-- The `float` that `deg + declination`, `deg - 360` and `deg + 360` yield, given the
  exact sum or difference. -/
  rnd : α → α

/-- The `float` division `temp0 / temp1` of lines 515, 520, 527 and 532, for finite
operands. A zero divisor is `+0.0`, the only zero `mmc3416_read` stores (lines 490-492
subtract in round-to-nearest): `0 / 0` is NaN and `x / 0` is the infinity of the sign of
`x`. -/
def float_div {α : Type} [LinearOrderedField α] (div : α → FQuot α) (temp0 temp1 : α) :
    FQuot α :=
  if temp1 = 0 then
    if temp0 = 0 then FQuot.nan
    else if 0 < temp0 then FQuot.pinf else FQuot.ninf
  else div (temp0 / temp1)

/-- Lines 511-534 of `get_heading` in float arithmetic: the base heading held in the
`float deg` before the declination is added; `none` is NaN. -/
def quadrant_float {α : Type} [LinearOrderedField α] (env : FloatEnv α)
    (mmc3416d : mmc3416data α) : Option α :=
  if mmc3416d.X < 0 then
    if mmc3416d.Y > 0 then
      let temp0 := mmc3416d.Y
      let temp1 := -mmc3416d.X
      (env.angle (float_div env.div temp0 temp1)).map (fun a => env.store (90 - a))
    else
      let temp0 := -mmc3416d.Y
      let temp1 := -mmc3416d.X
      (env.angle (float_div env.div temp0 temp1)).map (fun a => env.store (90 + a))
  else
    if mmc3416d.Y < 0 then
      let temp0 := -mmc3416d.Y
      let temp1 := mmc3416d.X
      (env.angle (float_div env.div temp0 temp1)).map (fun a => env.store (270 - a))
    else
      let temp0 := mmc3416d.Y
      let temp1 := mmc3416d.X
      (env.angle (float_div env.div temp0 temp1)).map (fun a => env.store (270 + a))

/-- Lines 535-541 of `get_heading` in float arithmetic, for a `deg` that is not NaN:
`deg += declination`, then one correction by 360. -/
def declination_wrap {α : Type} [LinearOrderedField α] (rnd : α → α) (deg declination : α) :
    α :=
  let deg := rnd (deg + declination)
  if declination > 0 then
    if deg > 360 then rnd (deg - 360) else deg
  else
    if deg < 0 then rnd (deg + 360) else deg

/-- The function `get_heading(mmc3416d)` with the global `declination`, in float
arithmetic; `none` is NaN. A NaN `deg` stays NaN in `deg += declination`, fails both
comparisons and is returned. -/
def get_heading_float {α : Type} [LinearOrderedField α] (env : FloatEnv α) (declination : α)
    (mmc3416d : mmc3416data α) : Option α :=
  let deg : Option α :=
    if mmc3416d.X < 0 then
      if mmc3416d.Y > 0 then
        let temp0 := mmc3416d.Y
        let temp1 := -mmc3416d.X
        (env.angle (float_div env.div temp0 temp1)).map (fun a => env.store (90 - a))
      else
        let temp0 := -mmc3416d.Y
        let temp1 := -mmc3416d.X
        (env.angle (float_div env.div temp0 temp1)).map (fun a => env.store (90 + a))
    else
      if mmc3416d.Y < 0 then
        let temp0 := -mmc3416d.Y
        let temp1 := mmc3416d.X
        (env.angle (float_div env.div temp0 temp1)).map (fun a => env.store (270 - a))
      else
        let temp0 := mmc3416d.Y
        let temp1 := mmc3416d.X
        (env.angle (float_div env.div temp0 temp1)).map (fun a => env.store (270 + a))
  match deg with
  | none => none
  | some deg =>
    let deg := env.rnd (deg + declination)
    if declination > 0 then
      if deg > 360 then some (env.rnd (deg - 360)) else some deg
    else
      if deg < 0 then some (env.rnd (deg + 360)) else some deg

/-- The binary32 result of a division by a non-zero `float`, given the exact quotient `x`:
the rounded quotient, or an infinity when it reaches `2 ^ 128`. -/
def float32_div {α : Type} [LinearOrderedField α] [FloorRing α] (x : α) : FQuot α :=
  let r := float32_round x
  if 2 ^ 128 ≤ r then FQuot.pinf else if r ≤ -2 ^ 128 then FQuot.ninf else FQuot.fin r

/-- The angle `atan(q) * (180 / 3.14159)` for the C library arctangent `atan`, with
`atan(+inf) = halfPi`, `atan(-inf) = -halfPi` and `atan(NaN) = NaN`. -/
def angle_of {α : Type} [LinearOrderedField α] (atan : α → α) (halfPi : α) :
    FQuot α → Option α
  | FQuot.fin q => some (atan q * (180 / 3.14159))
  | FQuot.pinf => some (halfPi * (180 / 3.14159))
  | FQuot.ninf => some (-halfPi * (180 / 3.14159))
  | FQuot.nan => none

/-- IEEE arithmetic with `float` as binary32, rounding to nearest even; the `double`
operations are taken without their own (much finer) rounding. -/
def binary32 {α : Type} [LinearOrderedField α] [FloorRing α] (atan : α → α) (halfPi : α) :
    FloatEnv α :=
  { div := float32_div, angle := angle_of atan halfPi, store := float32_round,
    rnd := float32_round }

/-- Exact arithmetic: no operation rounds. -/
def exact_arith {α : Type} [LinearOrderedField α] (atan : α → α) (halfPi : α) : FloatEnv α :=
  { div := FQuot.fin, angle := angle_of atan halfPi, store := id, rnd := id }

/-- What the theorems ask of the arithmetic: a division by a non-zero finite `float` is not
NaN, the angle of NaN is NaN, the angle of any other quotient is a number of absolute value
at most `90 + 3 / 32768` (the arctangent stays within `±π/2`, and
`π/2 * (180 / 3.14159)` is about `90.000076`), and both roundings are `Rounding`s. -/
def FloatEnv.Valid {α : Type} [LinearOrderedField α] (env : FloatEnv α) : Prop :=
  (∀ x, env.div x ≠ FQuot.nan) ∧
  env.angle FQuot.nan = none ∧
  (∀ q, q ≠ FQuot.nan →
    ∃ a, env.angle q = some a ∧ -(90 + 3 / 32768) ≤ a ∧ a ≤ 90 + 3 / 32768) ∧
  Rounding env.store ∧ Rounding env.rnd

/-! ## Call-log views, further mocks and `parseargs` -/

/-- The register+data writes of a log, in order: the bytes of every `writeRegister` call. -/
def registerWriteBytes (log : List BusOp) : List (List Nat) :=
  log.filterMap (fun op =>
    match op with
    | BusOp.write bytes _ => if 2 ≤ bytes.length then some bytes else none
    | _ => none)

/-- A transport that accepts every write: `write` returns the number of bytes given. -/
def AcceptsWrites {σ : Type} (bus : I2C σ) : Prop :=
  ∀ (s : σ) (bytes : List Nat), (bus.write s bytes).2 = (bytes.length : Int)

/-- A transport that reports data-ready: every one-byte read delivers a byte with bit 0 set. -/
def ReportsReady {σ : Type} (bus : I2C σ) : Prop :=
  ∀ s : σ, ∃ (b : Nat) (rest : List Nat), (bus.read s 1).2 = b :: rest ∧ (b % 256) &&& 0x01 = 1

/-- A transport without state that accepts every write and delivers `0x01` bytes. -/
def alwaysReady : I2C Unit where
  write := fun s bytes => (s, (bytes.length : Int))
  read := fun s len => (s, List.replicate len 1)
  delay := fun s _ => s

/-- The C library `isspace` in the "C" locale. -/
def c_isspace (c : Char) : Bool :=
  c = ' ' || c = '\t' || c = '\n' || c = '\x0b' || c = '\x0c' || c = '\r'

/-- The digit loop of `atoi`: the value of the leading decimal digits. -/
def atoi_digits : Int → List Char → Int
  | acc, [] => acc
  | acc, c :: cs =>
    if c.isDigit then atoi_digits (acc * 10 + ((c.toNat - 48 : Nat) : Int)) cs else acc

/-- The C library `atoi` on a string given as its characters: leading white space is
skipped, an optional sign is read, then decimal digits up to the first other character
(values outside the range of `int` are not modelled). -/
def atoi (str : List Char) : Int :=
  match str.dropWhile c_isspace with
  | '-' :: cs => -(atoi_digits 0 cs)
  | '+' :: cs => atoi_digits 0 cs
  | cs => atoi_digits 0 cs

/-- The case `'c'` of `parseargs` (`getmmc3416.c`, lines 103-115): the value left in
`cmfreq_mode`, or `exit(-1)`. -/
def parse_cmfreq (optarg : List Char) : Outcome Int :=
  if optarg.length > 1 then Outcome.exit (-1) else
  let cmfreq_mode := atoi optarg
  if cmfreq_mode < 0 ∨ cmfreq_mode > 3 then Outcome.exit (-1) else Outcome.ret cmfreq_mode

/-- The case `'l'` of `parseargs` (`getmmc3416.c`, lines 129-138): the value left in the
`float` global `declination`, or `exit(-1)`. -/
def parse_declination {α : Type} [LinearOrderedField α] (optarg : List Char) : Outcome α :=
  let declination : α := ((atoi optarg : Int) : α)
  if declination < -30.0 ∨ declination > 30.0 then Outcome.exit (-1)
  else Outcome.ret declination

/-- The polls of `mmc3416_read` that find Status not ready, as logged on the scripted
transport: for each status byte a register select, the read, and the 10 ms sleep. -/
def notReadyPolls : List Nat → List BusOp
  | [] => []
  | b :: bs =>
    BusOp.write [MMC3416_STATUS_ADDR] 1 :: BusOp.read 1 [b] :: BusOp.delay 10 ::
      notReadyPolls bs

/-! ## Register dump: `mmc3416_dump` -/

/-- The conversion `%02X` of `printf` for a `char` argument holding byte `b`: the `char` is
promoted to `int` and printed as an `unsigned int` in upper-case hexadecimal, padded with
zeros to two digits. -/
def fmt_02X (signedChar : Bool) (b : Nat) : List Char :=
  let digits := (Nat.toDigits 16 (char_to_int signedChar b)).map Char.toUpper
  List.replicate (2 - digits.length) '0' ++ digits

/-- The macro `BYTE_TO_BINARY(byte)` of `mmc3416.h`: the eight characters given to
`BYTE_TO_BINARY_PATTERN`. (The masks only look at the low eight bits of the promoted
`char`.) -/
def BYTE_TO_BINARY (byte : Nat) : List Char :=
  [ if byte &&& 0x80 ≠ 0 then '1' else '0',
    if byte &&& 0x40 ≠ 0 then '1' else '0',
    if byte &&& 0x20 ≠ 0 then '1' else '0',
    if byte &&& 0x10 ≠ 0 then '1' else '0',
    if byte &&& 0x08 ≠ 0 then '1' else '0',
    if byte &&& 0x04 ≠ 0 then '1' else '0',
    if byte &&& 0x02 ≠ 0 then '1' else '0',
    if byte &&& 0x01 ≠ 0 then '1' else '0' ]

/-- The `switch(i)` of the name table of `mmc3416_dump`: the register name printed for
row `i` (`none`: the `default: continue`). -/
def dump_reg_name (i : Nat) : Option String :=
  match i with
  | 0 => some "  Xout Low"
  | 1 => some " Xout High"
  | 2 => some "  Yout Low"
  | 3 => some " Yout High"
  | 4 => some "  Zout Low"
  | 5 => some " Zout High"
  | 6 => some "    Status"
  | 7 => some " Control-0"
  | 8 => some " Control-1"
  | _ => none

/-- What `mmc3416_dump` prints: the hexadecimal fields of the lines `[0x00]`, `[0x10]` and
`[0x20]`, and the rows of the name table (name, hexadecimal field, binary pattern). -/
structure DumpOutput where
  line00 : List (List Char)
  line10 : List (List Char)
  line20 : List Char
  table : List (String × List Char × List Char)
  deriving DecidableEq, Repr

/-- How a run of `mmc3416_dump` ends: `exit(code)` after a failed bus call; a store past the
end of a local buffer (`read` was given the address of element `first` of a buffer of
`size` elements and stored `count` bytes, undefined behaviour); or the output printed
before `exit(0)`. -/
inductive DumpResult where
  | exit (code : Int)
  | overrun (size first count : Nat)
  | printed (out : DumpOutput)
  deriving DecidableEq, Repr

/-- The call `read(i2cfd, &buf[i], len)` on a local buffer: the bytes delivered (at most
`len`) are stored from element `i` on; `none` when a byte is stored past the end of the
buffer. The count is what the caller compares with `len`. -/
def read_at {σ : Type} (bus : I2C σ) (s : σ) (buf : List Nat) (i len : Nat) :
    σ × Option (List Nat) × Nat :=
  match bus.read s len with
  | (s1, got) =>
    let bytes := (got.take len).map (fun b => b % 256)
    if i + bytes.length ≤ buf.length then
      (s1, some (buf.take i ++ bytes ++ buf.drop (i + bytes.length)), bytes.length)
    else (s1, none, bytes.length)

/-- A read loop of `mmc3416_dump` (lines 180-191 and 197-208), with `k` iterations left:
select register `reg`, read `len` bytes to `&buf[i]`, then `reg++` and `i++`. -/
def dump_loop {σ : Type} (bus : I2C σ) (len : Nat) :
    Nat → Nat → Nat → List Nat → σ → σ × Except DumpResult (List Nat)
  | 0, _, _, buf, s => (s, Except.ok buf)
  | k + 1, i, reg, buf, s =>
    match bus.write s [reg] with
    | (s, n) =>
    if n ≠ 1 then (s, Except.error (DumpResult.exit (-1))) else
    match read_at bus s buf i len with
    | (s, none, count) => (s, Except.error (DumpResult.overrun buf.length i count))
    | (s, some buf, count) =>
      if count ≠ len then (s, Except.error (DumpResult.exit (-1)))
      else dump_loop bus len k (i + 1) (reg + 1) buf s

/-- The function `mmc3416_dump()`. -/
def mmc3416_dump {σ : Type} (signedChar : Bool) (bus : I2C σ) (s : σ) : σ × DumpResult :=
  match dump_loop bus 9 9 0 0x00 (List.replicate 9 0) s with
  | (s, Except.error r) => (s, r)
  | (s, Except.ok buf1) =>
  match dump_loop bus 5 5 0 0x1b (List.replicate 5 0) s with
  | (s, Except.error r) => (s, r)
  | (s, Except.ok buf2) =>
  match bus.write s [0x20] with
  | (s, n) =>
  if n ≠ 1 then (s, DumpResult.exit (-1)) else
  match read_char bus s 0 with
  | (s, buf3, n) =>
  if n ≠ 1 then (s, DumpResult.exit (-1)) else
  (s, DumpResult.printed
    { line00 := (List.range 9).map (fun i => fmt_02X signedChar (buf1.getD i 0))
      line10 := (List.range 5).map (fun i => fmt_02X signedChar (buf2.getD i 0))
      line20 := fmt_02X signedChar buf3
      table := (List.range 9).filterMap (fun i =>
        (dump_reg_name i).map (fun name =>
          (name, fmt_02X signedChar (buf1.getD i 0), BYTE_TO_BINARY (buf1.getD i 0)))) })

/-- Whether a run of `mmc3416_dump` ended with its output printed. -/
def DumpResult.isPrinted : DumpResult → Bool
  | DumpResult.printed _ => true
  | _ => false

/-! ## Debug output of `mmc3416_read` -/

/-- The debug loop of `mmc3416_read`, lines 473-477, on the 6-element buffer `measure`
with the global `verbose`: `for(i=0; i<7; i++) if(verbose == 1) printf(.., measure[i],
reg+i)`. The result is the list of pairs printed, or `Except.error i` when `measure[i]` is
read with `i` past the end of the buffer (undefined behaviour). -/
def debug_loop (verbose : Int) (reg : Nat) (measure : List Nat) :
    Except Nat (List (Nat × Nat)) :=
  (List.range 7).foldl (fun acc i =>
    match acc with
    | Except.error e => Except.error e
    | Except.ok out =>
      if verbose = 1 then
        match measure.get? i with
        | some b => Except.ok (out ++ [(b, reg + i)])
        | none => Except.error i
      else Except.ok out) (Except.ok [])

/-- The indices of `measure` that the debug loop reads: every `i` in `0..6` when
`verbose == 1`, none otherwise. -/
def debug_loop_indices (verbose : Int) : List Nat :=
  (List.range 7).filter (fun _ => decide (verbose = 1))

/-- The indices of `measure` used by the LSB/MSB reassembly, lines 483-485. -/
def reassembly_indices : List Nat := [1, 0, 3, 2, 5, 4]

/-! ## Theorems -/

set_option maxRecDepth 1000000 in
/-- For a byte and a valid mode, the byte `set_cmfreq` builds is a byte again and
carries the mode in bits 2-3. -/
theorem cmfreq_regdata_mode : ∀ c : Fin 256, ∀ m : Fin 4,
    freq_mode (cmfreq_regdata c.val (m.val : Int)) = m.val ∧
      cmfreq_regdata c.val (m.val : Int) < 256 := by
  decide

/-- The same fact for a byte and a mode given as natural numbers. -/
theorem cmfreq_regdata_mode_nat (c : Nat) (hc : c < 256) (m : Nat) (hm : m < 4) :
    freq_mode (cmfreq_regdata c (m : Int)) = m ∧ cmfreq_regdata c (m : Int) < 256 :=
  cmfreq_regdata_mode ⟨c, hc⟩ ⟨m, hm⟩

/-- A decoded frequency mode is one of 0..3. -/
theorem freq_mode_lt (c : Nat) : freq_mode c < 4 := by
  unfold freq_mode
  exact Nat.lt_of_le_of_lt Nat.and_le_right (by decide)

/-- C1: over the register-file model (a byte written to Control0 is read back unchanged),
for every mode in 0..3, every register image and pointer, `set_cmfreq(mode)` returns 0 and
`mmc3416_info` then returns a Control0 byte whose decoded frequency mode is `mode`. -/
theorem set_cmfreq_then_info_decodes_mode (mode : Nat) (hmode : mode < 4)
    (regs : Nat → Nat) (ptr : Nat) (i0 : mmc3416inf) :
    (set_cmfreq regFile (mode : Int) ⟨regs, ptr⟩).2 = Outcome.ret 0 ∧
    ∃ inf : mmc3416inf,
      (mmc3416_info regFile i0 (set_cmfreq regFile (mode : Int) ⟨regs, ptr⟩).1).2
          = Outcome.ret inf ∧
        info_cmfreq_mode inf = mode := by
  have hc : regs 7 % 256 < 256 := Nat.mod_lt _ (by decide)
  obtain ⟨h1, h2⟩ := cmfreq_regdata_mode_nat (regs 7 % 256) hc mode hmode
  by_cases hcur : (mode : Int) = ((freq_mode (regs 7 % 256) : Nat) : Int)
  · have hcur' : mode = freq_mode (regs 7 % 256) := by exact_mod_cast hcur
    simp [set_cmfreq, mmc3416_info, get_prdid, regFile, read_char, MMC3416_CTL0_ADDR,
      MMC3416_CTL1_ADDR, MMC3416_PRODUCT_ID_ADDR, List.range_succ, hcur, info_cmfreq_mode]
    rw [hcur']; rfl
  · simp [set_cmfreq, mmc3416_info, get_prdid, regFile, read_char, MMC3416_CTL0_ADDR,
      MMC3416_CTL1_ADDR, MMC3416_PRODUCT_ID_ADDR, List.range_succ, hcur, info_cmfreq_mode,
      Nat.mod_eq_of_lt h2, h1]
    exact h1

/-- C2: on the register-file model with a call log, for every Control0 byte `c` and the
mode equal to `c`'s frequency mode, `set_cmfreq(mode)` returns 0, the log holds no
`writeRegister` call (only the register select and the read), and Control0 still
holds `c`. -/
theorem set_cmfreq_same_mode_writes_nothing (c : Nat) (hc : c < 256) (regs : Nat → Nat)
    (ptr : Nat) (hregs : regs MMC3416_CTL0_ADDR = c) :
    (set_cmfreq (logged regFile) ((freq_mode c : Nat) : Int) (⟨regs, ptr⟩, [])).2
        = Outcome.ret 0 ∧
      registerWrites (set_cmfreq (logged regFile) ((freq_mode c : Nat) : Int)
        (⟨regs, ptr⟩, [])).1.2 = 0 ∧
      (set_cmfreq (logged regFile) ((freq_mode c : Nat) : Int)
        (⟨regs, ptr⟩, [])).1.2
          = [BusOp.write [MMC3416_CTL0_ADDR] 1, BusOp.read 1 [c]] ∧
      (set_cmfreq (logged regFile) ((freq_mode c : Nat) : Int)
        (⟨regs, ptr⟩, [])).1.1.regs MMC3416_CTL0_ADDR = c := by
  simp only [MMC3416_CTL0_ADDR] at hregs
  simp [set_cmfreq, logged, regFile, read_char, MMC3416_CTL0_ADDR, List.range_succ, hregs,
    Nat.mod_eq_of_lt hc, registerWrites, BusOp.isRegisterWrite]

/-- C3: on any transport with a call log, when the first read of Control0 delivers `c`,
the requested mode (any `int`, in particular 0..3) differs from `c`'s frequency mode, the
Control0 write is accepted and the re-read delivers the byte `b`: `set_cmfreq` makes
exactly one `writeRegister` call (the five calls listed, no retry) and returns -1 if
bits 2-3 of `b` differ from the mode, 0 otherwise. -/
theorem set_cmfreq_one_write_then_verify {σ : Type} (bus : I2C σ) (s s1 s2 s3 s4 s5 : σ)
    (c b : Nat) (new_mode n : Int) (hc : c < 256) (hb : b < 256)
    (h1 : bus.write s [MMC3416_CTL0_ADDR] = (s1, 1))
    (h2 : bus.read s1 1 = (s2, [c]))
    (hne : new_mode ≠ ((freq_mode c : Nat) : Int))
    (h3 : bus.write s2 [MMC3416_CTL0_ADDR, cmfreq_regdata c new_mode] = (s3, 2))
    (h4 : bus.write s3 [MMC3416_CTL0_ADDR] = (s4, n))
    (h5 : bus.read s4 1 = (s5, [b])) :
    (set_cmfreq (logged bus) new_mode (s, [])).2
        = Outcome.ret (if ((freq_mode b : Nat) : Int) ≠ new_mode then -1 else 0) ∧
      (set_cmfreq (logged bus) new_mode (s, [])).1
        = (s5, [BusOp.write [MMC3416_CTL0_ADDR] 1, BusOp.read 1 [c],
            BusOp.write [MMC3416_CTL0_ADDR, cmfreq_regdata c new_mode] 2,
            BusOp.write [MMC3416_CTL0_ADDR] n, BusOp.read 1 [b]]) ∧
      registerWrites (set_cmfreq (logged bus) new_mode (s, [])).1.2 = 1 := by
  by_cases hv : new_mode = ((freq_mode b : Nat) : Int)
  · subst hv
    simp [set_cmfreq, logged, read_char, h1, h2, h3, h4, h5, Nat.mod_eq_of_lt hc,
      Nat.mod_eq_of_lt hb, hne, registerWrites, BusOp.isRegisterWrite,
      List.countP_cons]
  · have hv' : ¬ (((freq_mode b : Nat) : Int) = new_mode) := fun h => hv h.symm
    simp [set_cmfreq, logged, read_char, h1, h2, h3, h4, h5, Nat.mod_eq_of_lt hc,
      Nat.mod_eq_of_lt hb, hne, hv, hv', registerWrites, BusOp.isRegisterWrite,
      List.countP_cons]

/-- Witness for C3 on the scripted transport: Control0 reads `0x00` (mode 0), mode 2 is
requested, the write of `0x2B` is accepted and the re-read delivers `0x2B`. -/
theorem set_cmfreq_one_write_then_verify_witness :
    (set_cmfreq (logged script) 2
        ({ writes := [1, 2, 1], reads := [[0x00], [0x2B]], slept := 0 }, [])).2
        = Outcome.ret (if ((freq_mode 0x2B : Nat) : Int) ≠ 2 then -1 else 0) ∧
      (set_cmfreq (logged script) 2
        ({ writes := [1, 2, 1], reads := [[0x00], [0x2B]], slept := 0 }, [])).1
        = ({ writes := [], reads := [], slept := 0 },
            [BusOp.write [MMC3416_CTL0_ADDR] 1, BusOp.read 1 [0x00],
            BusOp.write [MMC3416_CTL0_ADDR, cmfreq_regdata 0x00 2] 2,
            BusOp.write [MMC3416_CTL0_ADDR] 1, BusOp.read 1 [0x2B]]) ∧
      registerWrites (set_cmfreq (logged script) 2
        ({ writes := [1, 2, 1], reads := [[0x00], [0x2B]], slept := 0 }, [])).1.2 = 1 :=
  set_cmfreq_one_write_then_verify script
    { writes := [1, 2, 1], reads := [[0x00], [0x2B]], slept := 0 }
    { writes := [2, 1], reads := [[0x00], [0x2B]], slept := 0 }
    { writes := [2, 1], reads := [[0x2B]], slept := 0 }
    { writes := [1], reads := [[0x2B]], slept := 0 }
    { writes := [], reads := [[0x2B]], slept := 0 }
    { writes := [], reads := [], slept := 0 }
    0x00 0x2B 2 1 (by decide) (by decide) rfl rfl (by decide) rfl rfl rfl

/-- Witness for C2: Control0 holds `0x0A` (frequency mode 2). -/
theorem set_cmfreq_same_mode_writes_nothing_witness :
    (set_cmfreq (logged regFile) ((freq_mode 0x0A : Nat) : Int)
        (⟨fun _ => 0x0A, 0⟩, [])).2 = Outcome.ret 0 ∧
      registerWrites (set_cmfreq (logged regFile) ((freq_mode 0x0A : Nat) : Int)
        (⟨fun _ => 0x0A, 0⟩, [])).1.2 = 0 ∧
      (set_cmfreq (logged regFile) ((freq_mode 0x0A : Nat) : Int)
        (⟨fun _ => 0x0A, 0⟩, [])).1.2
          = [BusOp.write [MMC3416_CTL0_ADDR] 1, BusOp.read 1 [0x0A]] ∧
      (set_cmfreq (logged regFile) ((freq_mode 0x0A : Nat) : Int)
        (⟨fun _ => 0x0A, 0⟩, [])).1.1.regs MMC3416_CTL0_ADDR = 0x0A :=
  set_cmfreq_same_mode_writes_nothing 0x0A (by decide) (fun _ => 0x0A) 0 rfl

/-- Witness for C1: mode 3 on an all-zero register image. -/
theorem set_cmfreq_then_info_decodes_mode_witness :
    (set_cmfreq regFile ((3 : Nat) : Int) ⟨fun _ => 0, 0⟩).2 = Outcome.ret 0 ∧
    ∃ inf : mmc3416inf,
      (mmc3416_info regFile ⟨0, 0, 0⟩ (set_cmfreq regFile ((3 : Nat) : Int) ⟨fun _ => 0, 0⟩).1).2
          = Outcome.ret inf ∧
        info_cmfreq_mode inf = 3 :=
  set_cmfreq_then_info_decodes_mode 3 (by decide) (fun _ => 0) 0 ⟨0, 0, 0⟩

/-! ### `mmc3416_read` -/

/-- The function `mmc3416_read` is its bus traffic (`read_raw`) followed by the conversion
of `measured_data`; after a refused measurement request the struct is left as it was. -/
theorem mmc3416_read_eq_read_raw {σ α : Type} [LinearOrderedField α] (signedChar : Bool)
    (bus : I2C σ) (fuel : Nat) (offset : Arr3 α) (d : mmc3416data α) (s : σ) :
    mmc3416_read signedChar bus fuel offset d s =
      (read_raw signedChar bus fuel s).map (fun r =>
        match r.2 with
        | none => (r.1, d, -1)
        | some raw => (r.1, milligauss raw offset, 0)) := by
  unfold mmc3416_read read_raw
  by_cases hn : (bus.write s [MMC3416_CTL0_ADDR, 0x01]).2 = 2
  · cases hp : poll_status bus fuel 0 (bus.write s [MMC3416_CTL0_ADDR, 0x01]).1 <;>
      simp [hn, hp, milligauss, Arr3.get]
  · simp [hn]

/-- With an unsigned plain `char`, two bytes combine to `lsb + 256 * msb`. -/
theorem combine_bytes_unsigned (msb lsb : Nat) (hm : msb < 256) (hl : lsb < 256) :
    combine_bytes false msb lsb = lsb + 256 * msb := by
  have h1 : msb <<< 8 = 2 ^ 8 * msb := by rw [Nat.shiftLeft_eq, Nat.mul_comm]
  have h2 : lsb < 2 ^ 8 := by simpa using hl
  simp only [combine_bytes, char_to_int, Bool.false_and, Bool.false_eq_true, if_false]
  have h3 : 2 ^ 8 * msb % 2 ^ 32 = 2 ^ 8 * msb := Nat.mod_eq_of_lt (by omega)
  have h4 : (2 ^ 8 * msb + lsb) % 2 ^ 16 = 2 ^ 8 * msb + lsb := Nat.mod_eq_of_lt (by omega)
  rw [h1, h3, ← Nat.mul_add_lt_is_or h2, h4]
  omega

/-- C4 (the code at the failing input): the measurement request is accepted, Status
reports data-ready, the register select for the data is accepted, and the 6-byte burst
read fails (delivers nothing). `mmc3416_read` still returns 0, with a measurement computed
from the zero-filled buffer. -/
theorem mmc3416_read_returns_zero_after_failed_burst_read :
    mmc3416_read false script 1 (Arr3.mk 0 0 0) (mmc3416data.mk (7 : ℚ) 7 7)
        { writes := [2, 1, 1], reads := [[1], []], slept := 0 }
      = some ({ writes := [], reads := [], slept := 0 }, mmc3416data.mk 0 0 0, 0) := by
  simp [mmc3416_read, script, poll_status, read_char, read_buf, measured_data,
    combine_bytes, char_to_int, Arr3.get]

/-- C5 (the code at the failing input): where plain `char` is signed, the burst bytes
`80 00 00 00 00 00` give `measured_data[0] = 0xFF80 = 65408`, not `0x0080 = 128`: the
sign-extended LSB sets every bit of the MSB. With an unsigned `char` the value is 128. -/
theorem measured_data_signed_char_lsb_0x80 :
    measured_data true [0x80, 0, 0, 0, 0, 0] = Arr3.mk 65408 0 0 ∧
    measured_data false [0x80, 0, 0, 0, 0, 0] = Arr3.mk 128 0 0 ∧
    mmc3416_read true script 1 (Arr3.mk 0 0 0) (mmc3416data.mk (0 : ℚ) 0 0)
        { writes := [], reads := [[1], [0x80, 0, 0, 0, 0, 0]], slept := 0 }
      = some ({ writes := [], reads := [], slept := 0 }, mmc3416data.mk 31937.5 0 0, 0) := by
  refine ⟨by decide, by decide, ?_⟩
  simp [mmc3416_read, script, poll_status, read_char, read_buf, measured_data,
    combine_bytes, char_to_int, Arr3.get]
  norm_num

/-- With an unsigned plain `char`, six bytes delivered by the burst read are reassembled
as little-endian 16-bit values, each below 65536. -/
theorem measured_data_unsigned (b0 b1 b2 b3 b4 b5 : Nat) (h0 : b0 < 256) (h1 : b1 < 256)
    (h2 : b2 < 256) (h3 : b3 < 256) (h4 : b4 < 256) (h5 : b5 < 256) :
    measured_data false [b0, b1, b2, b3, b4, b5]
        = Arr3.mk (b0 + 256 * b1) (b2 + 256 * b3) (b4 + 256 * b5) ∧
      b0 + 256 * b1 < 65536 ∧ b2 + 256 * b3 < 65536 ∧ b4 + 256 * b5 < 65536 := by
  refine ⟨?_, by omega, by omega, by omega⟩
  simp [measured_data, combine_bytes_unsigned, h0, h1, h2, h3, h4, h5]

/-- C6: whenever the bus traffic of `mmc3416_read` leaves the raw values `raw`, the
function returns 0 and stores `0.48828125 * raw[i] - offset[i]` on each axis; a raw value
of 2048 with offset 0 is stored as 1000. -/
theorem mmc3416_read_stores_milligauss {σ α : Type} [LinearOrderedField α]
    (signedChar : Bool) (bus : I2C σ) (fuel : Nat) (offset : Arr3 α) (d : mmc3416data α)
    (s s1 : σ) (raw : Arr3 Nat)
    (h : read_raw signedChar bus fuel s = some (s1, some raw)) :
    mmc3416_read signedChar bus fuel offset d s
        = some (s1,
            { X := 0.48828125 * (raw.e0 : α) - offset.e0
              Y := 0.48828125 * (raw.e1 : α) - offset.e1
              Z := 0.48828125 * (raw.e2 : α) - offset.e2 }, 0) ∧
      (raw.e0 = 2048 → offset.e0 = 0 →
        (mmc3416_read signedChar bus fuel offset d s).map (fun r => r.2.1.X) = some 1000) ∧
      (raw.e1 = 2048 → offset.e1 = 0 →
        (mmc3416_read signedChar bus fuel offset d s).map (fun r => r.2.1.Y) = some 1000) ∧
      (raw.e2 = 2048 → offset.e2 = 0 →
        (mmc3416_read signedChar bus fuel offset d s).map (fun r => r.2.1.Z) = some 1000) := by
  have hr := mmc3416_read_eq_read_raw signedChar bus fuel offset d s
  rw [h] at hr
  simp only [Option.map_some', milligauss] at hr
  refine ⟨hr, ?_, ?_, ?_⟩ <;>
  · intro h1 h2
    rw [hr, h1, h2]
    simp only [Option.map_some']
    norm_num

/-- Witness for C6 on the scripted transport: the burst read delivers `00 08 80 00 01 80`
(raw values 2048, 128, 32769) after one poll that is not ready. -/
theorem mmc3416_read_stores_milligauss_witness :
    mmc3416_read false script 2 (Arr3.mk 0 1 2) (mmc3416data.mk (0 : ℚ) 0 0)
        { writes := [], reads := [[0], [1], [0x00, 0x08, 0x80, 0x00, 0x01, 0x80]], slept := 0 }
        = some ({ writes := [], reads := [], slept := 10 },
            { X := 0.48828125 * ((2048 : Nat) : ℚ) - 0
              Y := 0.48828125 * ((128 : Nat) : ℚ) - 1
              Z := 0.48828125 * ((32769 : Nat) : ℚ) - 2 }, 0) ∧
      ((2048 : Nat) = 2048 → (0 : ℚ) = 0 →
        (mmc3416_read false script 2 (Arr3.mk 0 1 2) (mmc3416data.mk (0 : ℚ) 0 0)
          { writes := [], reads := [[0], [1], [0x00, 0x08, 0x80, 0x00, 0x01, 0x80]],
            slept := 0 }).map (fun r => r.2.1.X) = some 1000) ∧
      ((128 : Nat) = 2048 → (1 : ℚ) = 0 →
        (mmc3416_read false script 2 (Arr3.mk 0 1 2) (mmc3416data.mk (0 : ℚ) 0 0)
          { writes := [], reads := [[0], [1], [0x00, 0x08, 0x80, 0x00, 0x01, 0x80]],
            slept := 0 }).map (fun r => r.2.1.Y) = some 1000) ∧
      ((32769 : Nat) = 2048 → (2 : ℚ) = 0 →
        (mmc3416_read false script 2 (Arr3.mk 0 1 2) (mmc3416data.mk (0 : ℚ) 0 0)
          { writes := [], reads := [[0], [1], [0x00, 0x08, 0x80, 0x00, 0x01, 0x80]],
            slept := 0 }).map (fun r => r.2.1.Z) = some 1000) :=
  mmc3416_read_stores_milligauss false script 2 (Arr3.mk 0 1 2) (mmc3416data.mk (0 : ℚ) 0 0)
    { writes := [], reads := [[0], [1], [0x00, 0x08, 0x80, 0x00, 0x01, 0x80]], slept := 0 }
    { writes := [], reads := [], slept := 10 } (Arr3.mk 2048 128 32769) (by decide)

/-! ### `mmc3416_init` -/

/-- The calibration loop overwrites all three elements of `offset` with the means. -/
theorem init_offset_eq {α : Type} [LinearOrderedField α] (a b o : Arr3 α) :
    init_offset a b o
      = Arr3.mk ((a.e0 + b.e0) / 2) ((a.e1 + b.e1) / 2) ((a.e2 + b.e2) / 2) := by
  simp [init_offset, List.range_succ, Arr3.set, Arr3.get]

/-- C7: the calibration loop of `mmc3416_init` sets `offset[i] = (ds1[i] + ds2[i]) / 2` on
each of the three axes, whatever `offset` held before; for `ds1 = H + b` and
`ds2 = -H + b` the result is `b`; for `ds1 = (10,20,5)`, `ds2 = (-4,-10,-1)` it is
`(3,5,2)`. -/
theorem init_offset_is_mean {α : Type} [LinearOrderedField α] (ds1 ds2 offset : Arr3 α) :
    init_offset ds1 ds2 offset
        = Arr3.mk ((ds1.e0 + ds2.e0) / 2) ((ds1.e1 + ds2.e1) / 2) ((ds1.e2 + ds2.e2) / 2) ∧
      (∀ H b : Arr3 α,
        init_offset (Arr3.mk (H.e0 + b.e0) (H.e1 + b.e1) (H.e2 + b.e2))
          (Arr3.mk (-H.e0 + b.e0) (-H.e1 + b.e1) (-H.e2 + b.e2)) offset = b) ∧
      init_offset (Arr3.mk 10 20 5) (Arr3.mk (-4) (-10) (-1)) offset = Arr3.mk 3 5 2 := by
  refine ⟨init_offset_eq _ _ _, ?_, ?_⟩
  · intro H b
    rw [init_offset_eq]
    cases b
    simp only [Arr3.mk.injEq]
    refine ⟨by ring, by ring, by ring⟩
  · rw [init_offset_eq]
    simp only [Arr3.mk.injEq]
    refine ⟨by norm_num, by norm_num, by norm_num⟩

/-- C8: when the bus traffic of `mmc3416_init` goes through (SET, a read leaving raw
values `r1`, RESET, a read leaving `r2`, SET), then whatever `offset` and the struct held
before, `mmc3416_init` returns with `offset[i] = 0.48828125 * (r1[i] + r2[i]) / 2`; and
when a second run meets the same raw values, it returns with the same `offset`. -/
theorem mmc3416_init_offset_idempotent {σ α : Type} [LinearOrderedField α]
    (signedChar : Bool) (bus : I2C σ) (fuel : Nat) (s s5 s10 : σ) (r1 r2 : Arr3 Nat)
    (run1 : InitRun signedChar bus fuel s r1 r2 s5)
    (run2 : InitRun signedChar bus fuel s5 r1 r2 s10)
    (offset : Arr3 α) (d : mmc3416data α) :
    mmc3416_init signedChar bus fuel offset d s
        = some (s5, Outcome.ret
            (Arr3.mk (0.48828125 * ((r1.e0 : α) + (r2.e0 : α)) / 2)
              (0.48828125 * ((r1.e1 : α) + (r2.e1 : α)) / 2)
              (0.48828125 * ((r1.e2 : α) + (r2.e2 : α)) / 2),
             milligauss r2 (Arr3.mk 0 0 0))) ∧
      mmc3416_init signedChar bus fuel
          (Arr3.mk (0.48828125 * ((r1.e0 : α) + (r2.e0 : α)) / 2)
            (0.48828125 * ((r1.e1 : α) + (r2.e1 : α)) / 2)
            (0.48828125 * ((r1.e2 : α) + (r2.e2 : α)) / 2))
          (milligauss r2 (Arr3.mk 0 0 0)) s5
        = some (s10, Outcome.ret
            (Arr3.mk (0.48828125 * ((r1.e0 : α) + (r2.e0 : α)) / 2)
              (0.48828125 * ((r1.e1 : α) + (r2.e1 : α)) / 2)
              (0.48828125 * ((r1.e2 : α) + (r2.e2 : α)) / 2),
             milligauss r2 (Arr3.mk 0 0 0))) := by
  have key : ∀ (t t5 : σ) (o : Arr3 α) (e : mmc3416data α),
      InitRun signedChar bus fuel t r1 r2 t5 →
      mmc3416_init signedChar bus fuel o e t
        = some (t5, Outcome.ret
            (Arr3.mk (0.48828125 * ((r1.e0 : α) + (r2.e0 : α)) / 2)
              (0.48828125 * ((r1.e1 : α) + (r2.e1 : α)) / 2)
              (0.48828125 * ((r1.e2 : α) + (r2.e2 : α)) / 2),
             milligauss r2 (Arr3.mk 0 0 0))) := by
    intro t t5 o e hrun
    obtain ⟨t1, t2, t3, t4, hset, hr1, hreset, hr2, hset2⟩ := hrun
    simp only [mmc3416_init, hset, hreset, hset2, mmc3416_read_eq_read_raw, hr1, hr2,
      Option.map_some', init_offset_eq, milligauss, Arr3.set]
    simp only [Option.some.injEq, Prod.mk.injEq, Outcome.ret.injEq, Arr3.mk.injEq, true_and,
      and_true]
    refine ⟨by ring, by ring, by ring⟩
  exact ⟨key s s5 offset d run1, key s5 s10 _ _ run2⟩

/-- Witness for C8 on the scripted transport: raw values `(2048,16,32)` after SET and
`(1024,48,64)` after RESET in both passes; the first pass starts from offset `(5,6,7)`. -/
theorem mmc3416_init_offset_idempotent_witness :
    mmc3416_init false script 1 (Arr3.mk 5 6 7) (mmc3416data.mk (1 : ℚ) 2 3) initScript
        = some (initScript5, Outcome.ret
            (Arr3.mk (0.48828125 * (((Arr3.mk 2048 16 32 : Arr3 Nat).e0 : ℚ)
                + ((Arr3.mk 1024 48 64 : Arr3 Nat).e0 : ℚ)) / 2)
              (0.48828125 * (((Arr3.mk 2048 16 32 : Arr3 Nat).e1 : ℚ)
                + ((Arr3.mk 1024 48 64 : Arr3 Nat).e1 : ℚ)) / 2)
              (0.48828125 * (((Arr3.mk 2048 16 32 : Arr3 Nat).e2 : ℚ)
                + ((Arr3.mk 1024 48 64 : Arr3 Nat).e2 : ℚ)) / 2),
             milligauss (Arr3.mk 1024 48 64) (Arr3.mk 0 0 0))) ∧
      mmc3416_init false script 1
          (Arr3.mk (0.48828125 * (((Arr3.mk 2048 16 32 : Arr3 Nat).e0 : ℚ)
                + ((Arr3.mk 1024 48 64 : Arr3 Nat).e0 : ℚ)) / 2)
              (0.48828125 * (((Arr3.mk 2048 16 32 : Arr3 Nat).e1 : ℚ)
                + ((Arr3.mk 1024 48 64 : Arr3 Nat).e1 : ℚ)) / 2)
              (0.48828125 * (((Arr3.mk 2048 16 32 : Arr3 Nat).e2 : ℚ)
                + ((Arr3.mk 1024 48 64 : Arr3 Nat).e2 : ℚ)) / 2))
          (milligauss (Arr3.mk 1024 48 64) (Arr3.mk 0 0 0)) initScript5
        = some (initScript10, Outcome.ret
            (Arr3.mk (0.48828125 * (((Arr3.mk 2048 16 32 : Arr3 Nat).e0 : ℚ)
                + ((Arr3.mk 1024 48 64 : Arr3 Nat).e0 : ℚ)) / 2)
              (0.48828125 * (((Arr3.mk 2048 16 32 : Arr3 Nat).e1 : ℚ)
                + ((Arr3.mk 1024 48 64 : Arr3 Nat).e1 : ℚ)) / 2)
              (0.48828125 * (((Arr3.mk 2048 16 32 : Arr3 Nat).e2 : ℚ)
                + ((Arr3.mk 1024 48 64 : Arr3 Nat).e2 : ℚ)) / 2),
             milligauss (Arr3.mk 1024 48 64) (Arr3.mk 0 0 0))) :=
  mmc3416_init_offset_idempotent false script 1 initScript initScript5 initScript10
    (Arr3.mk 2048 16 32) (Arr3.mk 1024 48 64)
    ⟨{ initScript with slept := 60 },
      { writes := []
        reads := [[1], [0x00, 0x04, 0x30, 0x00, 0x40, 0x00],
                  [1], [0x00, 0x08, 0x10, 0x00, 0x20, 0x00], [1], [0x00, 0x04, 0x30, 0x00, 0x40, 0x00]]
        slept := 70 },
      { writes := []
        reads := [[1], [0x00, 0x04, 0x30, 0x00, 0x40, 0x00],
                  [1], [0x00, 0x08, 0x10, 0x00, 0x20, 0x00], [1], [0x00, 0x04, 0x30, 0x00, 0x40, 0x00]]
        slept := 130 },
      { initScript5 with slept := 140 },
      by decide, by decide, by decide, by decide, by decide⟩
    ⟨{ initScript5 with slept := 260 },
      { writes := [], reads := [[1], [0x00, 0x04, 0x30, 0x00, 0x40, 0x00]], slept := 270 },
      { writes := [], reads := [[1], [0x00, 0x04, 0x30, 0x00, 0x40, 0x00]], slept := 330 },
      { writes := [], reads := [], slept := 340 },
      by decide, by decide, by decide, by decide, by decide⟩
    (Arr3.mk 5 6 7) (mmc3416data.mk 1 2 3)

/-! ### `get_heading` -/

/-- The rounded value is the floor or the floor plus one. -/
theorem round_half_even_bounds {α : Type} [LinearOrderedField α] [FloorRing α] (t : α) :
    ⌊t⌋ ≤ round_half_even t ∧ round_half_even t ≤ ⌊t⌋ + 1 := by
  unfold round_half_even
  simp only
  split_ifs <;> constructor <;> omega

/-- An integer rounds to itself. -/
theorem round_half_even_intCast (α : Type) [LinearOrderedField α] [FloorRing α] (n : ℤ) :
    round_half_even (n : α) = n := by
  unfold round_half_even
  simp

/-- A number less than one half away from an integer rounds to that integer. -/
theorem round_half_even_eq_of_near {α : Type} [LinearOrderedField α] [FloorRing α] (t : α)
    (n : ℤ) (h1 : (n : α) - 1 / 2 < t) (h2 : t < n + 1 / 2) : round_half_even t = n := by
  unfold round_half_even
  simp only
  rcases le_or_lt (n : α) t with h | h
  · have hf : ⌊t⌋ = n := by
      rw [Int.floor_eq_iff]
      constructor
      · exact h
      · linarith
    rw [hf, if_pos (by linarith)]
  · have hf : ⌊t⌋ = n - 1 := by
      rw [Int.floor_eq_iff]
      push_cast
      constructor <;> linarith
    rw [hf]
    push_cast
    rw [if_neg (by linarith), if_pos (by linarith)]
    ring

/-- Rounding to the nearest integer is monotone. -/
theorem round_half_even_mono {α : Type} [LinearOrderedField α] [FloorRing α] {t u : α}
    (h : t ≤ u) : round_half_even t ≤ round_half_even u := by
  rcases lt_or_eq_of_le (Int.floor_mono h) with hf | hf
  · calc round_half_even t ≤ ⌊t⌋ + 1 := (round_half_even_bounds t).2
      _ ≤ ⌊u⌋ := hf
      _ ≤ round_half_even u := (round_half_even_bounds u).1
  · unfold round_half_even
    simp only
    rw [← hf]
    have hr : t - (⌊t⌋ : α) ≤ u - (⌊t⌋ : α) := by linarith
    split_ifs <;> first | omega | (exfalso; linarith)

/-- A number below an integer does not round above it. -/
theorem round_half_even_le {α : Type} [LinearOrderedField α] [FloorRing α] {t : α} {n : ℤ}
    (h : t ≤ n) : round_half_even t ≤ n := by
  have := round_half_even_mono h
  rwa [round_half_even_intCast α n] at this

/-- A number above an integer does not round below it. -/
theorem le_round_half_even {α : Type} [LinearOrderedField α] [FloorRing α] {t : α} {n : ℤ}
    (h : (n : α) ≤ t) : n ≤ round_half_even t := by
  have := round_half_even_mono h
  rwa [round_half_even_intCast α n] at this

/-- Powers of two are positive. -/
theorem two_zpow_pos {α : Type} [LinearOrderedField α] (e : ℤ) : (0 : α) < 2 ^ e :=
  zpow_pos (by norm_num) e

/-- The power `2 ^ e` is `2 ^ n` steps of size `2 ^ (e - n)`. -/
theorem two_zpow_split (α : Type) [LinearOrderedField α] (n : ℕ) (e : ℤ) :
    ((2 ^ n : ℤ) : α) * 2 ^ (e - n) = 2 ^ e := by
  push_cast
  rw [← zpow_natCast, ← zpow_add₀ (by norm_num : (2 : α) ≠ 0)]
  congr 1
  ring

/-- Rounding to a grid of spacing `2 ^ k` keeps a value below a grid point below it. -/
theorem grid_round_le {α : Type} [LinearOrderedField α] [FloorRing α] (x : α) (n k : ℤ)
    (h : x ≤ (n : α) * 2 ^ k) :
    (round_half_even (x / 2 ^ k) : α) * 2 ^ k ≤ (n : α) * 2 ^ k := by
  have hq : (0 : α) < 2 ^ k := two_zpow_pos k
  have h1 : x / 2 ^ k ≤ (n : α) := by rwa [div_le_iff₀ hq]
  have h2 : ((round_half_even (x / 2 ^ k) : ℤ) : α) ≤ (n : α) := by
    exact_mod_cast round_half_even_le h1
  exact mul_le_mul_of_nonneg_right h2 hq.le

/-- Rounding to a grid of spacing `2 ^ k` keeps a value above a grid point above it. -/
theorem le_grid_round {α : Type} [LinearOrderedField α] [FloorRing α] (x : α) (n k : ℤ)
    (h : (n : α) * 2 ^ k ≤ x) :
    (n : α) * 2 ^ k ≤ (round_half_even (x / 2 ^ k) : α) * 2 ^ k := by
  have hq : (0 : α) < 2 ^ k := two_zpow_pos k
  have h1 : (n : α) ≤ x / 2 ^ k := by rwa [le_div_iff₀ hq]
  have h2 : (n : α) ≤ ((round_half_even (x / 2 ^ k) : ℤ) : α) := by
    exact_mod_cast le_round_half_even h1
  exact mul_le_mul_of_nonneg_right h2 hq.le

/-- Rounding to one grid is monotone. -/
theorem grid_round_mono {α : Type} [LinearOrderedField α] [FloorRing α] (x y : α) (k : ℤ)
    (h : x ≤ y) :
    (round_half_even (x / 2 ^ k) : α) * 2 ^ k ≤ (round_half_even (y / 2 ^ k) : α) * 2 ^ k := by
  have hq : (0 : α) < 2 ^ k := two_zpow_pos k
  have h1 : x / 2 ^ k ≤ y / 2 ^ k := div_le_div_of_nonneg_right h hq.le
  have h2 : ((round_half_even (x / 2 ^ k) : ℤ) : α)
      ≤ ((round_half_even (y / 2 ^ k) : ℤ) : α) := by
    exact_mod_cast round_half_even_mono h1
  exact mul_le_mul_of_nonneg_right h2 hq.le

/-- A number lies below the next power of two above its exponent. -/
theorem abs_lt_float32_exp {α : Type} [LinearOrderedField α] [FloorRing α] (x : α) :
    |x| < 2 ^ (float32_exp x + 1) := by
  have h1 : |x| < ((2 : ℕ) : α) ^ (Int.log 2 |x| + 1) :=
    Int.lt_zpow_succ_log_self (by norm_num) _
  have h2 : ((2 : ℕ) : α) ^ (Int.log 2 |x| + 1) ≤ ((2 : ℕ) : α) ^ (float32_exp x + 1) :=
    zpow_le_zpow_right₀ (by norm_num)
      (by unfold float32_exp; have := le_max_left (Int.log 2 |x|) (-126); omega)
  have := lt_of_lt_of_le h1 h2
  simpa using this

/-- Above the subnormal range a non-zero number is at least the power of two of its
exponent. -/
theorem float32_exp_le_abs {α : Type} [LinearOrderedField α] [FloorRing α] (x : α)
    (hx : x ≠ 0) (h : -126 < float32_exp x) : 2 ^ float32_exp x ≤ |x| := by
  have he : float32_exp x = Int.log 2 |x| := by
    unfold float32_exp at h ⊢
    rcases le_total (Int.log 2 |x|) (-126) with h1 | h1
    · rw [max_eq_right h1] at h; omega
    · exact max_eq_left h1
  rw [he]
  have := Int.zpow_log_le_self (b := 2) (r := |x|) (by norm_num) (abs_pos.mpr hx)
  simpa using this

/-- The exponent grows with the absolute value. -/
theorem float32_exp_mono {α : Type} [LinearOrderedField α] [FloorRing α] (x y : α)
    (hx : x ≠ 0) (h : |x| ≤ |y|) : float32_exp x ≤ float32_exp y := by
  unfold float32_exp
  exact max_le_max (Int.log_mono_right (abs_pos.mpr hx) h) le_rfl

/-- The exponent of a number between `2 ^ e` and `2 ^ (e + 1)` is `e`. -/
theorem float32_exp_eq {α : Type} [LinearOrderedField α] [FloorRing α] (x : α) (e : ℤ)
    (he : -126 ≤ e) (h1 : 2 ^ e ≤ |x|) (h2 : |x| < 2 ^ (e + 1)) : float32_exp x = e := by
  have hpos : 0 < |x| := lt_of_lt_of_le (two_zpow_pos e) h1
  have a1 : e ≤ Int.log 2 |x| := by
    rw [← Int.zpow_le_iff_le_log (by norm_num) hpos]
    simpa using h1
  have a2 : Int.log 2 |x| < e + 1 := by
    rw [← Int.lt_zpow_iff_log_lt (by norm_num) hpos]
    simpa using h2
  unfold float32_exp
  rw [max_eq_left (by omega)]
  omega

/-- Rounding to binary32 is monotone. -/
theorem float32_round_mono {α : Type} [LinearOrderedField α] [FloorRing α] :
    Monotone (float32_round : α → α) := by
  intro x y hxy
  rcases le_or_lt x 0 with hx | hx
  · rcases le_or_lt 0 y with hy | hy
    · have h1 := grid_round_le x 0 (float32_exp x - 23) (by simpa using hx)
      have h2 := le_grid_round y 0 (float32_exp y - 23) (by simpa using hy)
      simp only [Int.cast_zero, zero_mul] at h1 h2
      exact le_trans h1 h2
    · have hxn : x ≠ 0 := by intro h; rw [h] at hxy; exact absurd hxy (not_le.mpr hy)
      have hyn : y ≠ 0 := ne_of_lt hy
      have hx0 : x < 0 := lt_of_le_of_lt hxy hy
      have habs : |y| ≤ |x| := by rw [abs_of_neg hy, abs_of_neg hx0]; linarith
      rcases lt_or_eq_of_le (float32_exp_mono y x hyn habs) with he | he
      · have hE : -126 < float32_exp x := lt_of_le_of_lt (le_max_right _ _) he
        have hlow := float32_exp_le_abs x hxn hE
        rw [abs_of_neg hx0] at hlow
        have hup := abs_lt_float32_exp y
        rw [abs_of_neg hy] at hup
        have s1 := two_zpow_split α 23 (float32_exp x)
        have s2 := two_zpow_split α 24 (float32_exp y + 1)
        have e1 : float32_exp x - ((23 : ℕ) : ℤ) = float32_exp x - 23 := by push_cast; ring
        have e2 : float32_exp y + 1 - ((24 : ℕ) : ℤ) = float32_exp y - 23 := by
          push_cast; ring
        rw [e1] at s1
        rw [e2] at s2
        have c1 : ((-(2 ^ 23 : ℤ) : ℤ) : α) * 2 ^ (float32_exp x - 23)
            = -2 ^ float32_exp x := by
          push_cast at s1 ⊢
          rw [neg_mul, s1]
        have c2 : ((-(2 ^ 24 : ℤ) : ℤ) : α) * 2 ^ (float32_exp y - 23)
            = -2 ^ (float32_exp y + 1) := by
          push_cast at s2 ⊢
          rw [neg_mul, s2]
        have b1 := grid_round_le x (-(2 ^ 23 : ℤ)) (float32_exp x - 23)
          (by rw [c1]; linarith)
        have b2 := le_grid_round y (-(2 ^ 24 : ℤ)) (float32_exp y - 23)
          (by rw [c2]; linarith)
        rw [c1] at b1
        rw [c2] at b2
        have c3 : (2 : α) ^ (float32_exp y + 1) ≤ 2 ^ float32_exp x :=
          zpow_le_zpow_right₀ (by norm_num) (by omega)
        unfold float32_round
        simp only
        change _ ≤ _
        calc _ ≤ -2 ^ float32_exp x := b1
          _ ≤ -2 ^ (float32_exp y + 1) := by linarith
          _ ≤ _ := b2
      · unfold float32_round
        simp only
        rw [← he]
        exact grid_round_mono x y _ hxy
  · have hy : 0 < y := lt_of_lt_of_le hx hxy
    have hxn : x ≠ 0 := ne_of_gt hx
    have hyn : y ≠ 0 := ne_of_gt hy
    have habs : |x| ≤ |y| := by rw [abs_of_pos hx, abs_of_pos hy]; exact hxy
    rcases lt_or_eq_of_le (float32_exp_mono x y hxn habs) with he | he
    · have hE : -126 < float32_exp y := lt_of_le_of_lt (le_max_right _ _) he
      have hlow := float32_exp_le_abs y hyn hE
      rw [abs_of_pos hy] at hlow
      have hup := abs_lt_float32_exp x
      rw [abs_of_pos hx] at hup
      have s1 := two_zpow_split α 23 (float32_exp y)
      have s2 := two_zpow_split α 24 (float32_exp x + 1)
      have e1 : float32_exp y - ((23 : ℕ) : ℤ) = float32_exp y - 23 := by push_cast; ring
      have e2 : float32_exp x + 1 - ((24 : ℕ) : ℤ) = float32_exp x - 23 := by push_cast; ring
      rw [e1] at s1
      rw [e2] at s2
      have b1 := grid_round_le x (2 ^ 24 : ℤ) (float32_exp x - 23) (by rw [s2]; exact hup.le)
      have b2 := le_grid_round y (2 ^ 23 : ℤ) (float32_exp y - 23) (by rw [s1]; exact hlow)
      rw [s2] at b1
      rw [s1] at b2
      have c3 : (2 : α) ^ (float32_exp x + 1) ≤ 2 ^ float32_exp y :=
        zpow_le_zpow_right₀ (by norm_num) (by omega)
      unfold float32_round
      simp only
      change _ ≤ _
      calc _ ≤ (2 : α) ^ (float32_exp x + 1) := b1
        _ ≤ 2 ^ float32_exp y := c3
        _ ≤ _ := b2
    · unfold float32_round
      simp only
      rw [he]
      exact grid_round_mono x y _ hxy

/-- Zero rounds to zero. -/
theorem float32_round_zero {α : Type} [LinearOrderedField α] [FloorRing α] :
    float32_round (0 : α) = 0 := by
  unfold float32_round
  simp only [zero_div]
  have : round_half_even (0 : α) = 0 := by
    have := round_half_even_intCast α 0
    simpa using this
  rw [this]
  simp

/-- The value `float32_round x` for `x` between `2 ^ e` and `2 ^ (e + 1)`: the multiple
`n * 2 ^ (e - 23)` less than half a step away from `x`. -/
theorem float32_round_eq {α : Type} [LinearOrderedField α] [FloorRing α] (x : α) (e n : ℤ)
    (he : -126 ≤ e) (h1 : 2 ^ e ≤ |x|) (h2 : |x| < 2 ^ (e + 1))
    (hn1 : (n : α) - 1 / 2 < x / 2 ^ (e - 23)) (hn2 : x / 2 ^ (e - 23) < n + 1 / 2) :
    float32_round x = (n : α) * 2 ^ (e - 23) := by
  unfold float32_round
  simp only
  rw [float32_exp_eq x e he h1 h2, round_half_even_eq_of_near _ n hn1 hn2]

/-- A binary32 value rounds to itself. -/
theorem float32_round_exact {α : Type} [LinearOrderedField α] [FloorRing α] (x : α)
    (hx : IsBinary32 x) : float32_round x = x := by
  obtain ⟨m, k, hm, hk, _, rfl⟩ := hx
  by_cases hm0 : m = 0
  · subst hm0
    simp only [Int.cast_zero, zero_mul]
    exact float32_round_zero
  · have hmα : (m : α) ≠ 0 := by exact_mod_cast hm0
    have hx0 : (m : α) * 2 ^ k ≠ 0 := mul_ne_zero hmα (ne_of_gt (two_zpow_pos k))
    have habs : |(m : α) * 2 ^ k| < 2 ^ (24 + k) := by
      rw [abs_mul, abs_of_pos (two_zpow_pos k : (0 : α) < 2 ^ k),
        zpow_add₀ (by norm_num : (2 : α) ≠ 0)]
      have h24 : |(m : α)| < 2 ^ (24 : ℤ) := by
        have : ((|m| : ℤ) : α) < ((2 ^ 24 : ℤ) : α) := by exact_mod_cast hm
        rw [Int.cast_abs] at this
        rw [zpow_ofNat]
        exact_mod_cast this
      exact mul_lt_mul_of_pos_right h24 (two_zpow_pos k)
    have hlog : Int.log 2 |(m : α) * 2 ^ k| < 24 + k := by
      rw [← Int.lt_zpow_iff_log_lt (by norm_num) (abs_pos.mpr hx0)]
      simpa using habs
    have hE : float32_exp ((m : α) * 2 ^ k) ≤ k + 23 := by
      unfold float32_exp
      exact max_le (by omega) (by omega)
    unfold float32_round
    simp only
    generalize float32_exp ((m : α) * 2 ^ k) = E at hE
    obtain ⟨j, hj⟩ : ∃ j : ℕ, (j : ℤ) = k + 23 - E := ⟨(k + 23 - E).toNat, by omega⟩
    have hk2 : k = (j : ℤ) + (E - 23) := by omega
    have hq : (m : α) * 2 ^ k / 2 ^ (E - 23) = ((m * 2 ^ j : ℤ) : α) := by
      rw [hk2, zpow_add₀ (by norm_num : (2 : α) ≠ 0), zpow_natCast]
      push_cast
      have hz : (2 : α) ^ (E - 23) ≠ 0 := ne_of_gt (two_zpow_pos _)
      field_simp
      ring
    rw [hq, round_half_even_intCast]
    rw [hk2, zpow_add₀ (by norm_num : (2 : α) ≠ 0), zpow_natCast]
    push_cast
    ring

/-- Rounding to nearest even is a `Rounding`. -/
theorem float32_round_rounding {α : Type} [LinearOrderedField α] [FloorRing α] :
    Rounding (float32_round : α → α) :=
  ⟨float32_round_mono, float32_round_exact⟩

/-- A `Rounding` keeps a value between two binary32 values between them. -/
theorem rounding_interval {α : Type} [LinearOrderedField α] (rnd : α → α) (h : Rounding rnd)
    (lo hi x : α) (hlo : IsBinary32 lo) (hhi : IsBinary32 hi) (h1 : lo ≤ x) (h2 : x ≤ hi) :
    lo ≤ rnd x ∧ rnd x ≤ hi := by
  constructor
  · have := h.1 h1
    rwa [h.2 lo hlo] at this
  · have := h.1 h2
    rwa [h.2 hi hhi] at this

/-- The multiples of `2 ^ (-15)` up to `512` are binary32 values. -/
theorem isBinary32_grid (α : Type) [LinearOrderedField α] (m : ℤ) (hm : |m| < 2 ^ 24) :
    IsBinary32 ((m : α) / 32768) := by
  refine ⟨m, -15, hm, by norm_num, by norm_num, ?_⟩
  rw [div_eq_mul_inv]
  congr 1
  rw [zpow_neg, zpow_ofNat]
  norm_num

/-- The integers of absolute value below `2 ^ 24` are binary32 values. -/
theorem isBinary32_int (α : Type) [LinearOrderedField α] (m : ℤ) (hm : |m| < 2 ^ 24) :
    IsBinary32 (m : α) :=
  ⟨m, 0, hm, by norm_num, by norm_num, by simp⟩

/-- The value `-(3 / 32768)`, about `-0.0000916`, is a binary32 value. -/
theorem isBinary32_lo {α : Type} [LinearOrderedField α] : IsBinary32 (-(3 / 32768) : α) := by
  have := isBinary32_grid α (-3) (by norm_num)
  have e : (((-3 : ℤ) : α) / 32768) = -(3 / 32768) := by push_cast; ring
  rwa [e] at this

/-- The value `360 + 3 / 32768`, about `360.0000916`, is a binary32 value. -/
theorem isBinary32_hi {α : Type} [LinearOrderedField α] :
    IsBinary32 (360 + 3 / 32768 : α) := by
  have := isBinary32_grid α 11796483 (by norm_num)
  have e : (((11796483 : ℤ) : α) / 32768) = 360 + 3 / 32768 := by push_cast; norm_num
  rwa [e] at this

/-! ### `get_heading` in float arithmetic -/

/-- The float division is NaN only for `0 / 0`. -/
theorem float_div_ne_nan {α : Type} [LinearOrderedField α] (div : α → FQuot α)
    (hdiv : ∀ x, div x ≠ FQuot.nan) (temp0 temp1 : α) (h : ¬ (temp0 = 0 ∧ temp1 = 0)) :
    float_div div temp0 temp1 ≠ FQuot.nan := by
  unfold float_div
  by_cases h1 : temp1 = 0
  · have h0 : temp0 ≠ 0 := fun h0 => h ⟨h0, h1⟩
    rw [if_pos h1, if_neg h0]
    split_ifs <;> simp
  · rw [if_neg h1]
    exact hdiv _

/-- The float division `0 / 0` is NaN. -/
theorem float_div_zero_zero {α : Type} [LinearOrderedField α] (div : α → FQuot α) :
    float_div div 0 0 = FQuot.nan := by
  simp [float_div]

/-- The function `get_heading_float` is the quadrant formula followed by the declination
step of lines 535-541, NaN passing through. -/
theorem get_heading_float_eq {α : Type} [LinearOrderedField α] (env : FloatEnv α)
    (declination : α) (m : mmc3416data α) :
    get_heading_float env declination m =
      (quadrant_float env m).map (fun deg => declination_wrap env.rnd deg declination) := by
  unfold get_heading_float
  simp only
  change (match quadrant_float env m with
    | none => none
    | some deg => _) = _
  cases quadrant_float env m with
  | none => rfl
  | some deg =>
    simp only [Option.map_some', declination_wrap]
    split_ifs <;> rfl

/-- A NaN base heading gives a NaN heading. -/
theorem get_heading_float_nan {α : Type} [LinearOrderedField α] (env : FloatEnv α)
    (d : α) (m : mmc3416data α) (hq : quadrant_float env m = none) :
    get_heading_float env d m = none := by
  rw [get_heading_float_eq, hq]
  rfl

/-- Without rounding and for `X ≠ 0` the float computation is the exact one: `get_heading`
is `get_heading_float` in exact arithmetic. -/
theorem get_heading_float_exact {α : Type} [LinearOrderedField α] (atan : α → α)
    (halfPi declination : α) (m : mmc3416data α) (hX : m.X ≠ 0) :
    get_heading_float (exact_arith atan halfPi) declination m
      = some (get_heading atan declination m) := by
  have hnX : -m.X ≠ 0 := neg_ne_zero.mpr hX
  have hq : quadrant_float (exact_arith atan halfPi) m = some (quadrant_deg atan m) := by
    unfold quadrant_float quadrant_deg
    simp only [exact_arith, float_div, if_neg hX, if_neg hnX, angle_of, id]
    split_ifs <;> rfl
  rw [get_heading_float_eq, hq]
  simp only [Option.map_some', declination_wrap, exact_arith, id]
  rfl

/-- At `X = 0`, `Y = 0` the quotient is `0 / 0` and the base heading is NaN. -/
theorem quadrant_float_none {α : Type} [LinearOrderedField α] (env : FloatEnv α)
    (hv : env.Valid) (Z : α) : quadrant_float env (mmc3416data.mk 0 0 Z) = none := by
  simp [quadrant_float, float_div_zero_zero, hv.2.1]

/-- Unless `X = 0` and `Y = 0`, the base heading held in the float `deg` is a number
between `-(3 / 32768)` and `360 + 3 / 32768`. -/
theorem quadrant_float_range {α : Type} [LinearOrderedField α] (env : FloatEnv α)
    (hv : env.Valid) (X Y Z : α) (h : ¬ (X = 0 ∧ Y = 0)) :
    ∃ deg, quadrant_float env (mmc3416data.mk X Y Z) = some deg ∧
      -(3 / 32768) ≤ deg ∧ deg ≤ 360 + 3 / 32768 := by
  obtain ⟨hdiv, _, hang, hstore, _⟩ := hv
  have key : ∀ temp0 temp1 : α, ¬ (temp0 = 0 ∧ temp1 = 0) →
      ∃ a, env.angle (float_div env.div temp0 temp1) = some a ∧
        -(90 + 3 / 32768) ≤ a ∧ a ≤ 90 + 3 / 32768 := fun temp0 temp1 h01 =>
    hang _ (float_div_ne_nan env.div hdiv temp0 temp1 h01)
  have st : ∀ x : α, -(3 / 32768) ≤ x → x ≤ 360 + 3 / 32768 →
      -(3 / 32768) ≤ env.store x ∧ env.store x ≤ 360 + 3 / 32768 := fun x h1 h2 =>
    rounding_interval env.store hstore _ _ x isBinary32_lo isBinary32_hi h1 h2
  unfold quadrant_float
  simp only
  by_cases hx : X < 0
  · rw [if_pos hx]
    by_cases hy : Y > 0
    · rw [if_pos hy]
      obtain ⟨a, ha, h1, h2⟩ := key Y (-X) (fun hh => by linarith [hh.1])
      rw [ha]
      exact ⟨_, rfl, st _ (by linarith) (by linarith)⟩
    · rw [if_neg hy]
      obtain ⟨a, ha, h1, h2⟩ := key (-Y) (-X) (fun hh => by linarith [hh.2])
      rw [ha]
      exact ⟨_, rfl, st _ (by linarith) (by linarith)⟩
  · rw [if_neg hx]
    by_cases hy : Y < 0
    · rw [if_pos hy]
      obtain ⟨a, ha, h1, h2⟩ := key (-Y) X (fun hh => by linarith [hh.1])
      rw [ha]
      exact ⟨_, rfl, st _ (by linarith) (by linarith)⟩
    · rw [if_neg hy]
      obtain ⟨a, ha, h1, h2⟩ := key Y X (fun hh => h ⟨hh.2, hh.1⟩)
      rw [ha]
      exact ⟨_, rfl, st _ (by linarith) (by linarith)⟩

/-- For a base heading between `-(3 / 32768)` and `360 + 3 / 32768` and a declination in
`[-30, 30]`, the declination step returns a value strictly between `-0.0001` and
`360.0001`. -/
theorem declination_wrap_range {α : Type} [LinearOrderedField α] (rnd : α → α)
    (hr : Rounding rnd) (deg declination : α) (h1 : -(3 / 32768) ≤ deg)
    (h2 : deg ≤ 360 + 3 / 32768) (hlo : -30 ≤ declination) (hhi : declination ≤ 30) :
    -0.0001 < declination_wrap rnd deg declination ∧
      declination_wrap rnd deg declination < 360.0001 := by
  have b0 : IsBinary32 (0 : α) := by
    have := isBinary32_grid α 0 (by norm_num)
    simpa using this
  have b360 : IsBinary32 (360 : α) := by
    have := isBinary32_grid α 11796480 (by norm_num)
    have e : (((11796480 : ℤ) : α) / 32768) = 360 := by push_cast; norm_num
    rwa [e] at this
  have b390 : IsBinary32 (390 + 3 / 32768 : α) := by
    have := isBinary32_grid α 12779523 (by norm_num)
    have e : (((12779523 : ℤ) : α) / 32768) = 390 + 3 / 32768 := by push_cast; norm_num
    rwa [e] at this
  have b30 : IsBinary32 (30 + 3 / 32768 : α) := by
    have := isBinary32_grid α 983043 (by norm_num)
    have e : (((983043 : ℤ) : α) / 32768) = 30 + 3 / 32768 := by push_cast; norm_num
    rwa [e] at this
  have bn30 : IsBinary32 (-(30 + 3 / 32768) : α) := by
    have := isBinary32_grid α (-983043) (by norm_num)
    have e : (((-983043 : ℤ) : α) / 32768) = -(30 + 3 / 32768) := by push_cast; norm_num
    rwa [e] at this
  have b330 : IsBinary32 (330 - 3 / 32768 : α) := by
    have := isBinary32_grid α 10813437 (by norm_num)
    have e : (((10813437 : ℤ) : α) / 32768) = 330 - 3 / 32768 := by push_cast; norm_num
    rwa [e] at this
  unfold declination_wrap
  simp only
  by_cases hd : declination > 0
  · rw [if_pos hd]
    obtain ⟨s1, s2⟩ := rounding_interval rnd hr _ _ (deg + declination) isBinary32_lo b390
      (by linarith) (by linarith)
    by_cases hw : rnd (deg + declination) > 360
    · rw [if_pos hw]
      obtain ⟨r1, r2⟩ := rounding_interval rnd hr _ _ (rnd (deg + declination) - 360) b0 b30
        (by linarith) (by linarith)
      constructor
      · linarith
      · have : (30 + 3 / 32768 : α) < 360.0001 := by norm_num
        linarith
    · rw [if_neg hw]
      constructor
      · have : (-0.0001 : α) < -(3 / 32768) := by norm_num
        linarith
      · have : (360 : α) < 360.0001 := by norm_num
        linarith [not_lt.mp hw]
  · rw [if_neg hd]
    obtain ⟨s1, s2⟩ := rounding_interval rnd hr _ _ (deg + declination) bn30 isBinary32_hi
      (by linarith) (by linarith [not_lt.mp hd])
    by_cases hw : rnd (deg + declination) < 0
    · rw [if_pos hw]
      obtain ⟨r1, r2⟩ := rounding_interval rnd hr _ _ (rnd (deg + declination) + 360) b330
        b360 (by linarith) (by linarith)
      constructor
      · have : (-0.0001 : α) < 330 - 3 / 32768 := by norm_num
        linarith
      · have : (360 : α) < 360.0001 := by norm_num
        linarith
    · rw [if_neg hw]
      constructor
      · have : (-0.0001 : α) < 0 := by norm_num
        linarith [not_lt.mp hw]
      · have : (360 + 3 / 32768 : α) < 360.0001 := by norm_num
        linarith

/-- The binary32 division is never NaN. -/
theorem float32_div_ne_nan {α : Type} [LinearOrderedField α] [FloorRing α] (x : α) :
    float32_div x ≠ FQuot.nan := by
  unfold float32_div
  simp only
  split_ifs <;> simp

/-- A quotient that is a binary32 value below `2 ^ 128` is the result of the division. -/
theorem float32_div_exact {α : Type} [LinearOrderedField α] [FloorRing α] (x : α)
    (hx : IsBinary32 x) (h1 : -2 ^ 128 < x) (h2 : x < 2 ^ 128) :
    float32_div x = FQuot.fin x := by
  unfold float32_div
  simp only
  rw [float32_round_exact x hx, if_neg (not_le.mpr h2), if_neg (not_le.mpr h1)]

/-- An angle within `±π/2`, scaled by `180 / 3.14159`, lies within `±(90 + 3 / 32768)`. -/
theorem scaled_half_pi_bounds (t : ℝ) (h1 : -(Real.pi / 2) ≤ t) (h2 : t ≤ Real.pi / 2) :
    -(90 + 3 / 32768) ≤ t * (180 / 3.14159) ∧ t * (180 / 3.14159) ≤ 90 + 3 / 32768 := by
  have hp2 : Real.pi < (3.141593 : ℝ) := Real.pi_lt_d6
  constructor
  · calc (-(90 + 3 / 32768) : ℝ) ≤ -(3.141593 / 2) * (180 / 3.14159) := by norm_num
      _ ≤ t * (180 / 3.14159) := mul_le_mul_of_nonneg_right (by linarith) (by norm_num)
  · calc t * (180 / 3.14159) ≤ 3.141593 / 2 * (180 / 3.14159) :=
          mul_le_mul_of_nonneg_right (by linarith) (by norm_num)
      _ ≤ 90 + 3 / 32768 := by norm_num

/-- The binary32 arithmetic with the real arctangent is `Valid`. -/
theorem binary32_valid : (binary32 Real.arctan (Real.pi / 2)).Valid := by
  refine ⟨float32_div_ne_nan, rfl, ?_, float32_round_rounding, float32_round_rounding⟩
  intro q hq
  cases q with
  | fin x =>
    exact ⟨_, rfl, scaled_half_pi_bounds _ (Real.neg_pi_div_two_lt_arctan x).le
      (Real.arctan_lt_pi_div_two x).le⟩
  | pinf =>
    exact ⟨_, rfl, scaled_half_pi_bounds _ (by linarith [Real.pi_pos]) le_rfl⟩
  | ninf =>
    exact ⟨_, rfl, scaled_half_pi_bounds _ (by linarith [Real.pi_pos])
      (by linarith [Real.pi_pos])⟩
  | nan => exact absurd rfl hq

/-- For the ratio `1000000` the angle the code computes is at least `90 + 1 / 65536`. -/
theorem arctan_million_scaled_ge :
    90 + 1 / 65536 ≤ Real.arctan 1000000 * (180 / 3.14159) := by
  have hp1 : (3.14159265358979323846 : ℝ) < Real.pi := Real.pi_gt_d20
  have hsmall : Real.arctan (1000000 : ℝ)⁻¹ < (1000000 : ℝ)⁻¹ := by
    have hpos : 0 < Real.arctan (1000000 : ℝ)⁻¹ := by
      rw [← Real.arctan_zero]; exact Real.arctan_strictMono (by norm_num)
    have h := Real.lt_tan hpos (Real.arctan_lt_pi_div_two _)
    rwa [Real.tan_arctan] at h
  have hinv : Real.arctan (1000000 : ℝ) = Real.pi / 2 - Real.arctan (1000000 : ℝ)⁻¹ := by
    have h := Real.arctan_inv_of_pos (x := (1000000 : ℝ)⁻¹) (by norm_num)
    rwa [inv_inv] at h
  have hlow : (1.5707953 : ℝ) < Real.arctan 1000000 := by
    rw [hinv]
    have : (1000000 : ℝ)⁻¹ = 0.000001 := by norm_num
    linarith
  calc (90 + 1 / 65536 : ℝ) ≤ 1.5707953 * (180 / 3.14159) := by norm_num
    _ ≤ Real.arctan 1000000 * (180 / 3.14159) :=
        mul_le_mul_of_nonneg_right hlow.le (by norm_num)

/-- The quotient `1000000 / 1` is the float `1000000`. -/
theorem float_div_million :
    float_div float32_div (1000000 : ℝ) 1 = FQuot.fin 1000000 := by
  unfold float_div
  rw [if_neg (by norm_num : ¬ ((1 : ℝ) = 0)), div_one]
  exact float32_div_exact _ ⟨15625, 6, by norm_num, by norm_num, by norm_num, by norm_num⟩
    (by norm_num) (by norm_num)

/-- The quotient `0 / 1` is the float `0`. -/
theorem float_div_zero_one : float_div float32_div (0 : ℝ) 1 = FQuot.fin 0 := by
  unfold float_div
  rw [if_neg (by norm_num : ¬ ((1 : ℝ) = 0)), div_one]
  exact float32_div_exact _ (by simpa using isBinary32_int ℝ 0 (by norm_num))
    (by norm_num) (by norm_num)

/-- The base heading at `X = 1`, `Y = 1000000`. -/
theorem quadrant_float_million :
    quadrant_float (binary32 Real.arctan (Real.pi / 2)) (mmc3416data.mk 1 1000000 0)
      = some (float32_round (270 + Real.arctan 1000000 * (180 / 3.14159))) := by
  have hx : ¬ ((1 : ℝ) < 0) := by norm_num
  have hy : ¬ ((1000000 : ℝ) < 0) := by norm_num
  simp only [quadrant_float, if_neg hx, if_neg hy, binary32, float_div_million, angle_of,
    Option.map_some']

/-- The base heading at `X = -1`, `Y = 1000000`. -/
theorem quadrant_float_neg_million :
    quadrant_float (binary32 Real.arctan (Real.pi / 2)) (mmc3416data.mk (-1) 1000000 0)
      = some (float32_round (90 - Real.arctan 1000000 * (180 / 3.14159))) := by
  have hx : ((-1 : ℝ) < 0) := by norm_num
  have hy : ((1000000 : ℝ) > 0) := by norm_num
  simp only [quadrant_float, if_pos hx, if_pos hy, binary32, neg_neg, float_div_million,
    angle_of, Option.map_some']

/-- The base heading at `X = 1`, `Y = 0` is the float `270`. -/
theorem quadrant_float_270 :
    quadrant_float (binary32 Real.arctan (Real.pi / 2)) (mmc3416data.mk 1 0 0) = some 270 := by
  have hx : ¬ ((1 : ℝ) < 0) := by norm_num
  have hy : ¬ ((0 : ℝ) < 0) := by norm_num
  have e270 : float32_round (270 : ℝ) = 270 :=
    float32_round_exact _ (by simpa using isBinary32_int ℝ 270 (by norm_num))
  simp only [quadrant_float, if_neg hx, if_neg hy, binary32, float_div_zero_one, angle_of,
    Option.map_some', Real.arctan_zero, zero_mul, add_zero, e270]

/-- The base heading at `X = -1`, `Y = 0` is the float `90`. -/
theorem quadrant_float_90 :
    quadrant_float (binary32 Real.arctan (Real.pi / 2)) (mmc3416data.mk (-1) 0 0)
      = some 90 := by
  have hx : ((-1 : ℝ) < 0) := by norm_num
  have hy : ¬ ((0 : ℝ) > 0) := lt_irrefl _
  have e90 : float32_round (90 : ℝ) = 90 :=
    float32_round_exact _ (by simpa using isBinary32_int ℝ 90 (by norm_num))
  simp only [quadrant_float, if_pos hx, if_neg hy, binary32, neg_neg, neg_zero,
    float_div_zero_one, angle_of, Option.map_some', Real.arctan_zero, zero_mul, add_zero, e90]

/-- The float division `1 / 0` is `+inf`. -/
theorem float_div_one_zero : float_div float32_div (1 : ℝ) 0 = FQuot.pinf := by
  simp [float_div]

/-- The base heading at `X = 0`, `Y = 1` is the float `360 + 1 / 16384`
(`360.00006103515625`): the quotient is `+inf` and `270 + π/2 * (180 / 3.14159)`, about
`360.000076`, is rounded. -/
theorem quadrant_float_zero_pos :
    quadrant_float (binary32 Real.arctan (Real.pi / 2)) (mmc3416data.mk 0 1 0)
      = some (360 + 1 / 16384) := by
  have hp1 : (3.14159265358979323846 : ℝ) < Real.pi := Real.pi_gt_d20
  have hp2 : Real.pi < (3.14159265358979323847 : ℝ) := Real.pi_lt_d20
  have hx : ¬ ((0 : ℝ) < 0) := lt_irrefl _
  have hy : ¬ ((1 : ℝ) < 0) := by norm_num
  have a1 : float32_round (270 + Real.pi / 2 * (180 / 3.14159) : ℝ) = 360 + 1 / 16384 := by
    have hpos : (0 : ℝ) < 270 + Real.pi / 2 * (180 / 3.14159) := by positivity
    have h := float32_round_eq (270 + Real.pi / 2 * (180 / 3.14159) : ℝ) 8 11796482
      (by norm_num)
      (by rw [abs_of_pos hpos]; norm_num; linarith)
      (by rw [abs_of_pos hpos]; norm_num; linarith)
      (by norm_num; linarith) (by norm_num; linarith)
    rw [h]
    norm_num
  simp only [quadrant_float, if_neg hx, if_neg hy, binary32, float_div_one_zero, angle_of,
    Option.map_some', a1]

/-- The base heading at `X = 0`, `Y = -1` is the float `180 - 5 / 65536`
(`179.9999237060546875`). -/
theorem quadrant_float_zero_neg :
    quadrant_float (binary32 Real.arctan (Real.pi / 2)) (mmc3416data.mk 0 (-1) 0)
      = some (180 - 5 / 65536) := by
  have hp1 : (3.14159265358979323846 : ℝ) < Real.pi := Real.pi_gt_d20
  have hp2 : Real.pi < (3.14159265358979323847 : ℝ) := Real.pi_lt_d20
  have hx : ¬ ((0 : ℝ) < 0) := lt_irrefl _
  have hy : ((-1 : ℝ) < 0) := by norm_num
  have a2 : float32_round (270 - Real.pi / 2 * (180 / 3.14159) : ℝ) = 180 - 5 / 65536 := by
    have hpos : (0 : ℝ) < 270 - Real.pi / 2 * (180 / 3.14159) := by
      have : Real.pi / 2 * (180 / 3.14159) < 100 := by
        rw [← sub_pos]; ring_nf; linarith
      linarith
    have h := float32_round_eq (270 - Real.pi / 2 * (180 / 3.14159) : ℝ) 7 11796475
      (by norm_num)
      (by rw [abs_of_pos hpos]; norm_num; linarith)
      (by rw [abs_of_pos hpos]; norm_num; linarith)
      (by norm_num; linarith) (by norm_num; linarith)
    rw [h]
    norm_num
  simp only [quadrant_float, if_neg hx, if_pos hy, binary32, neg_neg, float_div_one_zero,
    angle_of, Option.map_some', a2]

/-- The value `360 + 1 / 16384` is a binary32 value. -/
theorem isBinary32_360_up : IsBinary32 (360 + 1 / 16384 : ℝ) :=
  ⟨11796482, -15, by norm_num, by norm_num, by norm_num, by norm_num⟩

/-- With `X = 0` and declination 0 the float computation returns `360 + 1 / 16384`
(`360.00006103515625`) for `Y = 1`, `180 - 5 / 65536` (`179.9999237060546875`) for `Y = -1`
and NaN for `Y = 0`. -/
theorem get_heading_float_X_zero :
    get_heading_float (binary32 Real.arctan (Real.pi / 2)) 0 (mmc3416data.mk 0 1 0)
      = some (360 + 1 / 16384) ∧
    get_heading_float (binary32 Real.arctan (Real.pi / 2)) 0 (mmc3416data.mk 0 (-1) 0)
      = some (180 - 5 / 65536) ∧
    get_heading_float (binary32 Real.arctan (Real.pi / 2)) 0 (mmc3416data.mk 0 0 0)
      = none := by
  have b1 : float32_round (360 + 1 / 16384 + 0 : ℝ) = 360 + 1 / 16384 := by
    rw [add_zero]
    exact float32_round_exact _ isBinary32_360_up
  have b2 : float32_round (180 - 5 / 65536 + 0 : ℝ) = 180 - 5 / 65536 := by
    rw [add_zero]
    exact float32_round_exact _
      ⟨11796475, -16, by norm_num, by norm_num, by norm_num, by norm_num⟩
  refine ⟨?_, ?_, ?_⟩
  · rw [get_heading_float_eq, quadrant_float_zero_pos]
    simp only [Option.map_some', declination_wrap, binary32, b1, gt_iff_lt, lt_self_iff_false,
      if_false]
    rw [if_neg (by norm_num)]
  · rw [get_heading_float_eq, quadrant_float_zero_neg]
    simp only [Option.map_some', declination_wrap, binary32, b2, gt_iff_lt, lt_self_iff_false,
      if_false]
    rw [if_neg (by norm_num)]
  · rw [get_heading_float_eq, quadrant_float_none _ binary32_valid]
    rfl

/-- C10 (counterexample): in the float arithmetic of the code and with declinations inside
`[-30, 30]`, `get_heading` leaves `[0, 360)`. With declination 0 it returns
`360 + 1 / 16384` at `X = 0`, `Y = 1` (the quotient is `+inf` and the angle computed with
`3.14159` exceeds 90) and a value of at least 360 at `X = 1`, `Y = 1000000`; with
declination `1 / 1048576` it returns a negative value at `X = -1`, `Y = 1000000`; at
`X = 0`, `Y = 0` the quotient is `0 / 0` and it returns NaN. -/
theorem get_heading_float_outside_range :
    ((-30 : ℝ) ≤ 0 ∧ (0 : ℝ) ≤ 30 ∧
      ∃ h, get_heading_float (binary32 Real.arctan (Real.pi / 2)) 0
          (mmc3416data.mk 0 1 0) = some h ∧ h = 360 + 1 / 16384 ∧ ¬ (0 ≤ h ∧ h < 360)) ∧
    ((-30 : ℝ) ≤ 0 ∧ (0 : ℝ) ≤ 30 ∧
      ∃ h, get_heading_float (binary32 Real.arctan (Real.pi / 2)) 0
          (mmc3416data.mk 1 1000000 0) = some h ∧ ¬ (0 ≤ h ∧ h < 360)) ∧
    ((-30 : ℝ) ≤ 1 / 1048576 ∧ (1 / 1048576 : ℝ) ≤ 30 ∧
      ∃ h, get_heading_float (binary32 Real.arctan (Real.pi / 2)) (1 / 1048576)
          (mmc3416data.mk (-1) 1000000 0) = some h ∧ ¬ (0 ≤ h ∧ h < 360)) ∧
    get_heading_float (binary32 Real.arctan (Real.pi / 2)) 0 (mmc3416data.mk 0 0 0)
      = none := by
  have hm := arctan_million_scaled_ge
  have hr : Rounding (float32_round : ℝ → ℝ) := float32_round_rounding
  have e360 : float32_round (360 : ℝ) = 360 :=
    float32_round_exact _ (by simpa using isBinary32_int ℝ 360 (by norm_num))
  refine ⟨⟨by norm_num, by norm_num, ?_⟩, ⟨by norm_num, by norm_num, ?_⟩,
    ⟨by norm_num, by norm_num, ?_⟩, ?_⟩
  · refine ⟨_, get_heading_float_X_zero.1, rfl, ?_⟩
    intro h
    have := h.2
    norm_num at this
  · rw [get_heading_float_eq, quadrant_float_million]
    refine ⟨_, rfl, ?_⟩
    have h1 : (360 : ℝ) ≤ float32_round (270 + Real.arctan 1000000 * (180 / 3.14159)) := by
      have := hr.1 (show (360 : ℝ) ≤ 270 + Real.arctan 1000000 * (180 / 3.14159) by linarith)
      rwa [e360] at this
    have h2 : (360 : ℝ) ≤
        float32_round (float32_round (270 + Real.arctan 1000000 * (180 / 3.14159)) + 0) := by
      have := hr.1 (show (360 : ℝ) ≤
        float32_round (270 + Real.arctan 1000000 * (180 / 3.14159)) + 0 by linarith)
      rwa [e360] at this
    simp only [declination_wrap, binary32, gt_iff_lt, lt_self_iff_false, if_false]
    rw [if_neg (by linarith)]
    intro h
    linarith [h.2]
  · rw [get_heading_float_eq, quadrant_float_neg_million]
    refine ⟨_, rfl, ?_⟩
    have e1 : float32_round (-(1 / 65536) : ℝ) = -(1 / 65536) :=
      float32_round_exact _ ⟨-1, -16, by norm_num, by norm_num, by norm_num, by norm_num⟩
    have e2 : float32_round (-(15 / 1048576) : ℝ) = -(15 / 1048576) :=
      float32_round_exact _ ⟨-15, -20, by norm_num, by norm_num, by norm_num, by norm_num⟩
    have h1 : float32_round (90 - Real.arctan 1000000 * (180 / 3.14159)) ≤ -(1 / 65536) := by
      have := hr.1 (show 90 - Real.arctan 1000000 * (180 / 3.14159) ≤ (-(1 / 65536) : ℝ)
        by linarith)
      rwa [e1] at this
    have h2 : float32_round (float32_round (90 - Real.arctan 1000000 * (180 / 3.14159))
        + 1 / 1048576) ≤ -(15 / 1048576) := by
      have := hr.1 (show float32_round (90 - Real.arctan 1000000 * (180 / 3.14159))
        + 1 / 1048576 ≤ (-(15 / 1048576) : ℝ) by linarith)
      rwa [e2] at this
    have hd : (1 / 1048576 : ℝ) > 0 := by norm_num
    simp only [declination_wrap, binary32]
    rw [if_pos hd, if_neg (by linarith)]
    intro h
    linarith [h.1]
  · rw [get_heading_float_eq, quadrant_float_none _ binary32_valid]
    rfl

/-- C10 (amended): in float arithmetic, for every declination in `[-30, 30]` and every
measurement `(X, Y)` other than `X = 0`, `Y = 0`, `get_heading` returns a number `h` with
`-0.0001 < h < 360.0001`; at `X = 0`, `Y = 0` it returns NaN. This holds for every
arithmetic that is `Valid`: roundings that are monotone and fix the binary32 values, and an
arctangent within `±π/2`. -/
theorem get_heading_float_range {α : Type} [LinearOrderedField α] (env : FloatEnv α)
    (hv : env.Valid) (X Y Z declination : α) (hlo : -30 ≤ declination)
    (hhi : declination ≤ 30) :
    (X = 0 ∧ Y = 0 → get_heading_float env declination (mmc3416data.mk X Y Z) = none) ∧
    (¬ (X = 0 ∧ Y = 0) →
      ∃ h, get_heading_float env declination (mmc3416data.mk X Y Z) = some h ∧
        -0.0001 < h ∧ h < 360.0001) := by
  constructor
  · rintro ⟨rfl, rfl⟩
    rw [get_heading_float_eq, quadrant_float_none env hv]
    rfl
  · intro h
    obtain ⟨deg, hq, h1, h2⟩ := quadrant_float_range env hv X Y Z h
    rw [get_heading_float_eq, hq]
    exact ⟨_, rfl, declination_wrap_range env.rnd hv.2.2.2.2 deg declination h1 h2 hlo hhi⟩

/-- Witness for C10 (amended): binary32 arithmetic, `X = 1`, `Y = 1`, declination `7`. -/
theorem get_heading_float_range_witness :
    ∃ h, get_heading_float (binary32 Real.arctan (Real.pi / 2)) 7 (mmc3416data.mk 1 1 0)
        = some h ∧ -0.0001 < h ∧ h < 360.0001 :=
  (get_heading_float_range (binary32 Real.arctan (Real.pi / 2)) binary32_valid 1 1 0 7
    (by norm_num) (by norm_num)).2 (by norm_num)

/-! ### Declination wraparound -/

/-- The function `get_heading` is the quadrant formula followed by the declination step of
lines 535-541. -/
theorem get_heading_eq_wrap {α : Type} [LinearOrderedField α] (atan : α → α)
    (declination : α) (m : mmc3416data α) :
    get_heading atan declination m =
      (if declination > 0 then
        (if quadrant_deg atan m + declination > 360
          then quadrant_deg atan m + declination - 360
          else quadrant_deg atan m + declination)
      else
        (if quadrant_deg atan m + declination < 0
          then quadrant_deg atan m + declination + 360
          else quadrant_deg atan m + declination)) := rfl

/-- The angle `80 * 3.14159 / 180` lies in `(0, π/2)` and the code's scaling of its
arctangent-of-tangent gives back 80 degrees. -/
theorem arctan_tan_eighty :
    0 < Real.tan (80 * 3.14159 / 180) ∧
      Real.arctan (Real.tan (80 * 3.14159 / 180)) * (180 / 3.14159) = 80 := by
  have hp1 : (3.141592 : ℝ) < Real.pi := Real.pi_gt_d6
  have h0 : (0 : ℝ) < 80 * 3.14159 / 180 := by norm_num
  have h1 : (80 : ℝ) * 3.14159 / 180 < Real.pi / 2 := by
    have : (80 : ℝ) * 3.14159 / 180 < 3.141592 / 2 := by norm_num
    linarith
  refine ⟨Real.tan_pos_of_pos_of_lt_pi_div_two h0 h1, ?_⟩
  rw [Real.arctan_tan (by linarith) h1]
  norm_num

/-- A measurement in the branch `X ≥ 0, Y ≥ 0` whose base heading is exactly 350. -/
theorem quadrant_deg_350 :
    quadrant_deg Real.arctan (mmc3416data.mk 1 (Real.tan (80 * 3.14159 / 180)) 0) = 350 := by
  obtain ⟨hpos, h80⟩ := arctan_tan_eighty
  have hx : ¬ ((1 : ℝ) < 0) := by norm_num
  have hy : ¬ (Real.tan (80 * 3.14159 / 180) < 0) := not_lt.mpr hpos.le
  simp only [quadrant_deg, if_neg hx, if_neg hy, div_one, h80]
  norm_num

/-- A measurement in the branch `X < 0, Y > 0` whose base heading is exactly 10. -/
theorem quadrant_deg_10 :
    quadrant_deg Real.arctan (mmc3416data.mk (-1) (Real.tan (80 * 3.14159 / 180)) 0) = 10 := by
  obtain ⟨hpos, h80⟩ := arctan_tan_eighty
  have hx : ((-1 : ℝ) < 0) := by norm_num
  simp only [quadrant_deg, if_pos hx, if_pos hpos, neg_neg, div_one, h80]
  norm_num

/-- The float sum `270 + (90 + 1 / 131072)` is `360`: the exact sum `360 + 2 ^ (-17)` is a
quarter of a step above `360`. -/
theorem float32_round_sum_360 : float32_round (270 + (90 + 1 / 131072) : ℝ) = 360 := by
  have h := float32_round_eq (270 + (90 + 1 / 131072) : ℝ) 8 11796480 (by norm_num)
    (by rw [abs_of_pos (by norm_num)]; norm_num)
    (by rw [abs_of_pos (by norm_num)]; norm_num)
    (by norm_num) (by norm_num)
  rw [h]
  norm_num

/-- The float sum `90 + -(90 + 1 / 131072)` is `-(1 / 131072)`, without rounding. -/
theorem float32_round_sum_neg :
    float32_round (90 + -(90 + 1 / 131072) : ℝ) = -(1 / 131072) := by
  have : (90 + -(90 + 1 / 131072) : ℝ) = -(1 / 131072) := by norm_num
  rw [this]
  exact float32_round_exact _ ⟨-1, -17, by norm_num, by norm_num, by norm_num, by norm_num⟩

/-- The float sum `-(1 / 131072) + 360` is `360`. -/
theorem float32_round_below_360 : float32_round (-(1 / 131072) + 360 : ℝ) = 360 := by
  have h := float32_round_eq (-(1 / 131072) + 360 : ℝ) 8 11796480 (by norm_num)
    (by rw [abs_of_pos (by norm_num)]; norm_num)
    (by rw [abs_of_pos (by norm_num)]; norm_num)
    (by norm_num) (by norm_num)
  rw [h]
  norm_num

/-- C11 (counterexample): in the float arithmetic of the code the rule does not hold of the
exact sum. At `X = 1`, `Y = 0` the base heading is `deg = 270`; with
`d = 90 + 1 / 131072 > 0` the sum `deg + d` exceeds 360, but the float sum is `360`, the
test `deg > 360` fails and `get_heading` returns `360`, not `deg + d - 360`. At `X = -1`,
`Y = 0` the base heading is `deg = 90`; with `d = -(90 + 1 / 131072)` the sum is negative,
360 is added and the result is rounded to `360`, not `deg + d + 360`. -/
theorem get_heading_float_not_exact_wraparound :
    (quadrant_float (binary32 Real.arctan (Real.pi / 2)) (mmc3416data.mk 1 0 0) = some 270 ∧
      (90 + 1 / 131072 : ℝ) > 0 ∧ (270 : ℝ) + (90 + 1 / 131072) > 360 ∧
      get_heading_float (binary32 Real.arctan (Real.pi / 2)) (90 + 1 / 131072)
        (mmc3416data.mk 1 0 0) = some 360 ∧
      (360 : ℝ) ≠ 270 + (90 + 1 / 131072) - 360) ∧
    (quadrant_float (binary32 Real.arctan (Real.pi / 2)) (mmc3416data.mk (-1) 0 0) = some 90 ∧
      (-(90 + 1 / 131072) : ℝ) ≤ 0 ∧ (90 : ℝ) + -(90 + 1 / 131072) < 0 ∧
      get_heading_float (binary32 Real.arctan (Real.pi / 2)) (-(90 + 1 / 131072))
        (mmc3416data.mk (-1) 0 0) = some 360 ∧
      (360 : ℝ) ≠ 90 + -(90 + 1 / 131072) + 360) := by
  constructor
  · refine ⟨quadrant_float_270, by norm_num, by norm_num, ?_, by norm_num⟩
    have hd : (90 + 1 / 131072 : ℝ) > 0 := by norm_num
    rw [get_heading_float_eq, quadrant_float_270]
    simp only [Option.map_some', declination_wrap, binary32, float32_round_sum_360]
    rw [if_pos hd, if_neg (lt_irrefl _)]
  · refine ⟨quadrant_float_90, by norm_num, by norm_num, ?_, by norm_num⟩
    have hd : ¬ ((-(90 + 1 / 131072) : ℝ) > 0) := by norm_num
    have hw : (-(1 / 131072) : ℝ) < 0 := by norm_num
    rw [get_heading_float_eq, quadrant_float_90]
    simp only [Option.map_some', declination_wrap, binary32, float32_round_sum_neg]
    rw [if_neg hd, if_pos hw, float32_round_below_360]

/-- C11 (amended): with `deg` the base heading held in the float `deg`, `d` the declination
and `s = rnd (deg + d)` the float sum, `get_heading` returns `rnd (s - 360)` when `d > 0`
and `s > 360`, returns `rnd (s + 360)` when `d ≤ 0` and `s < 0`, and returns `s` in every
other case (one correction at most). When `deg + d` is a binary32 value the tests are those
of the exact sum, and when the corrected value is one too the result is `deg + d - 360`,
`deg + d + 360` or `deg + d` itself; for `deg = 350` and `d = 20` the result is 10. -/
theorem get_heading_float_wraparound {α : Type} [LinearOrderedField α] (env : FloatEnv α)
    (d : α) (m : mmc3416data α) (deg : α) (hq : quadrant_float env m = some deg) :
    ((d > 0 → env.rnd (deg + d) > 360 →
        get_heading_float env d m = some (env.rnd (env.rnd (deg + d) - 360))) ∧
      (d ≤ 0 → env.rnd (deg + d) < 0 →
        get_heading_float env d m = some (env.rnd (env.rnd (deg + d) + 360))) ∧
      (¬ (d > 0 ∧ env.rnd (deg + d) > 360) → ¬ (d ≤ 0 ∧ env.rnd (deg + d) < 0) →
        get_heading_float env d m = some (env.rnd (deg + d)))) ∧
    (Rounding env.rnd → IsBinary32 (deg + d) →
      (d > 0 → deg + d > 360 → IsBinary32 (deg + d - 360) →
        get_heading_float env d m = some (deg + d - 360)) ∧
      (d ≤ 0 → deg + d < 0 → IsBinary32 (deg + d + 360) →
        get_heading_float env d m = some (deg + d + 360)) ∧
      (¬ (d > 0 ∧ deg + d > 360) → ¬ (d ≤ 0 ∧ deg + d < 0) →
        get_heading_float env d m = some (deg + d))) ∧
    (Rounding env.rnd → deg = 350 → get_heading_float env 20 m = some 10) := by
  have first : (d > 0 → env.rnd (deg + d) > 360 →
        get_heading_float env d m = some (env.rnd (env.rnd (deg + d) - 360))) ∧
      (d ≤ 0 → env.rnd (deg + d) < 0 →
        get_heading_float env d m = some (env.rnd (env.rnd (deg + d) + 360))) ∧
      (¬ (d > 0 ∧ env.rnd (deg + d) > 360) → ¬ (d ≤ 0 ∧ env.rnd (deg + d) < 0) →
        get_heading_float env d m = some (env.rnd (deg + d))) := by
    refine ⟨?_, ?_, ?_⟩
    · intro hd hw
      rw [get_heading_float_eq, hq]
      simp only [Option.map_some', declination_wrap]
      rw [if_pos hd, if_pos hw]
    · intro hd hw
      rw [get_heading_float_eq, hq]
      simp only [Option.map_some', declination_wrap]
      rw [if_neg (not_lt.mpr hd), if_pos hw]
    · intro h1 h2
      rw [get_heading_float_eq, hq]
      simp only [Option.map_some', declination_wrap]
      by_cases hd : d > 0
      · have hw : ¬ (env.rnd (deg + d) > 360) := fun h => h1 ⟨hd, h⟩
        rw [if_pos hd, if_neg hw]
      · have hw : ¬ (env.rnd (deg + d) < 0) := fun h => h2 ⟨not_lt.mp hd, h⟩
        rw [if_neg hd, if_neg hw]
  refine ⟨first, ?_, ?_⟩
  · intro hr hs
    have es : env.rnd (deg + d) = deg + d := hr.2 _ hs
    refine ⟨?_, ?_, ?_⟩
    · intro hd hw hb
      rw [first.1 hd (by rw [es]; exact hw), es, hr.2 _ hb]
    · intro hd hw hb
      rw [first.2.1 hd (by rw [es]; exact hw), es, hr.2 _ hb]
    · intro h1 h2
      rw [first.2.2 (by rw [es]; exact h1) (by rw [es]; exact h2), es]
  · intro hr h350
    have e370 : env.rnd (350 + 20) = 370 := by
      have : (350 + 20 : α) = 370 := by norm_num
      rw [this]
      exact hr.2 _ (by simpa using isBinary32_int α 370 (by norm_num))
    have e10 : env.rnd (370 - 360) = 10 := by
      have : (370 - 360 : α) = 10 := by norm_num
      rw [this]
      exact hr.2 _ (by simpa using isBinary32_int α 10 (by norm_num))
    have h20 : (20 : α) > 0 := by norm_num
    have hw : (370 : α) > 360 := by norm_num
    rw [get_heading_float_eq, hq, h350]
    simp only [Option.map_some', declination_wrap, e370]
    rw [if_pos h20, if_pos hw, e10]

/-- Witness for C11 (amended): binary32 arithmetic, `X = 0`, `Y = 1` (the float `deg` is
`360 + 1 / 16384`) and declination 20: the sum `380 + 1 / 16384` is a binary32 value above
360 and the result is `20 + 1 / 16384`, that is `deg + d - 360`. -/
theorem get_heading_float_wraparound_witness :
    get_heading_float (binary32 Real.arctan (Real.pi / 2)) 20 (mmc3416data.mk 0 1 0)
      = some (360 + 1 / 16384 + 20 - 360) :=
  ((get_heading_float_wraparound (binary32 Real.arctan (Real.pi / 2)) 20
    (mmc3416data.mk 0 1 0) (360 + 1 / 16384) quadrant_float_zero_pos).2.1
      float32_round_rounding
      ⟨12451842, -15, by norm_num, by norm_num, by norm_num, by norm_num⟩).1
    (by norm_num) (by norm_num)
    ⟨655362, -15, by norm_num, by norm_num, by norm_num, by norm_num⟩

/-- C12 (counterexample): for a measurement with base heading 10 and declination -20 the
result of `get_heading` is 350, not 30. -/
theorem get_heading_deg10_not_30 :
    quadrant_deg Real.arctan (mmc3416data.mk (-1) (Real.tan (80 * 3.14159 / 180)) 0) = 10 ∧
    ¬ (get_heading Real.arctan (-20)
        (mmc3416data.mk (-1) (Real.tan (80 * 3.14159 / 180)) 0) = 30) := by
  refine ⟨quadrant_deg_10, ?_⟩
  have hd : ¬ ((-20 : ℝ) > 0) := by norm_num
  have hw : (10 : ℝ) + -20 < 0 := by norm_num
  rw [get_heading_eq_wrap, quadrant_deg_10, if_neg hd, if_pos hw]
  norm_num

/-- C12 (amended): when the base heading is 10 and the declination is -20, `get_heading`
returns 350, that is `10 - 20 + 360`. -/
theorem get_heading_deg10_decl_neg20 {α : Type} [LinearOrderedField α] (atan : α → α)
    (m : mmc3416data α) (h : quadrant_deg atan m = 10) :
    get_heading atan (-20) m = 350 ∧ (350 : α) = 10 - 20 + 360 := by
  have hd : ¬ ((-20 : α) > 0) := by norm_num
  have hw : (10 : α) + -20 < 0 := by norm_num
  rw [get_heading_eq_wrap, h, if_neg hd, if_pos hw]
  constructor <;> norm_num

/-- Witness for C12 (amended): the measurement `X = -1`, `Y = tan(80 * 3.14159 / 180)`. -/
theorem get_heading_deg10_decl_neg20_witness :
    get_heading Real.arctan (-20)
        (mmc3416data.mk (-1) (Real.tan (80 * 3.14159 / 180)) 0) = 350 ∧
      (350 : ℝ) = 10 - 20 + 360 :=
  get_heading_deg10_decl_neg20 Real.arctan
    (mmc3416data.mk (-1) (Real.tan (80 * 3.14159 / 180)) 0) quadrant_deg_10

/-! ### Call logs: `mmc3416_init`, `set_cmfreq`, `mmc3416_read`, `parseargs` -/

/-- The register writes of a concatenated log. -/
theorem registerWriteBytes_append (a b : List BusOp) :
    registerWriteBytes (a ++ b) = registerWriteBytes a ++ registerWriteBytes b := by
  simp [registerWriteBytes, List.filterMap_append]

/-- The function `mmc3416_set` on a logged transport that accepts every write. -/
theorem mmc3416_set_logged {σ : Type} (bus : I2C σ) (hw : AcceptsWrites bus) (s : σ)
    (log : List BusOp) :
    mmc3416_set (logged bus) (s, log) =
      (((bus.write (bus.delay (bus.write s [MMC3416_CTL0_ADDR, 0x80]).1 60)
          [MMC3416_CTL0_ADDR, 0x20]).1,
        log ++ [BusOp.write [MMC3416_CTL0_ADDR, 0x80] 2, BusOp.delay 60,
          BusOp.write [MMC3416_CTL0_ADDR, 0x20] 2]), Outcome.ret ()) := by
  simp [mmc3416_set, logged, hw _ _]

/-- The function `mmc3416_reset` on a logged transport that accepts every write. -/
theorem mmc3416_reset_logged {σ : Type} (bus : I2C σ) (hw : AcceptsWrites bus) (s : σ)
    (log : List BusOp) :
    mmc3416_reset (logged bus) (s, log) =
      (((bus.write (bus.delay (bus.write s [MMC3416_CTL0_ADDR, 0x80]).1 60)
          [MMC3416_CTL0_ADDR, 0x40]).1,
        log ++ [BusOp.write [MMC3416_CTL0_ADDR, 0x80] 2, BusOp.delay 60,
          BusOp.write [MMC3416_CTL0_ADDR, 0x40] 2]), Outcome.ret ()) := by
  simp [mmc3416_reset, logged, hw _ _]

/-- On a logged transport that reports data-ready the poll loop ends after one poll. -/
theorem poll_status_logged_ready {σ : Type} (bus : I2C σ) (hw : AcceptsWrites bus)
    (hr : ReportsReady bus) (fuel regdata : Nat) (s : σ) (log : List BusOp) :
    poll_status (logged bus) (fuel + 1) regdata (s, log) =
      some ((bus.read (bus.write s [MMC3416_STATUS_ADDR]).1 1).1,
        log ++ [BusOp.write [MMC3416_STATUS_ADDR] 1,
          BusOp.read 1 (bus.read (bus.write s [MMC3416_STATUS_ADDR]).1 1).2]) := by
  obtain ⟨b, rest, hb, hbit⟩ := hr (bus.write s [MMC3416_STATUS_ADDR]).1
  simp [poll_status, logged, read_char, hw _ _, hb, hbit]

/-- On a logged transport that accepts every write and reports data-ready, the bus
traffic of `mmc3416_read` goes through and its one register write is `[0x07, 0x01]`. -/
theorem read_raw_logged_ready {σ : Type} (signedChar : Bool) (bus : I2C σ)
    (hw : AcceptsWrites bus) (hr : ReportsReady bus) (fuel : Nat) (s : σ)
    (log : List BusOp) :
    ∃ (s1 : σ) (ops : List BusOp) (raw : Arr3 Nat),
      read_raw signedChar (logged bus) (fuel + 1) (s, log) = some ((s1, log ++ ops), some raw) ∧
        registerWriteBytes ops = [[MMC3416_CTL0_ADDR, 0x01]] := by
  have hp := poll_status_logged_ready bus hw hr fuel 0
    (bus.write s [MMC3416_CTL0_ADDR, 0x01]).1
    (log ++ [BusOp.write [MMC3416_CTL0_ADDR, 0x01] 2])
  have e1 : (logged bus).write (s, log) [MMC3416_CTL0_ADDR, 0x01]
      = (((bus.write s [MMC3416_CTL0_ADDR, 0x01]).1,
          log ++ [BusOp.write [MMC3416_CTL0_ADDR, 0x01] 2]), 2) := by
    simp [logged, hw _ _]
  simp only [read_raw, e1, hp]
  simp only [logged, read_buf, hw _ _, List.append_assoc, List.singleton_append,
    List.cons_append, List.nil_append, ne_eq, not_true_eq_false, if_false]
  refine ⟨_, _, _, rfl, ?_⟩
  simp [registerWriteBytes, MMC3416_STATUS_ADDR, MMC3416_XOUT_LSB_ADDR]

/-- A `delay` on a logged transport. -/
theorem logged_delay {σ : Type} (bus : I2C σ) (s : σ) (log : List BusOp) (msec : Nat) :
    (logged bus).delay (s, log) msec = (bus.delay s msec, log ++ [BusOp.delay msec]) := rfl

/-- C16: over a transport that accepts every write and reports data-ready, `mmc3416_init`
returns and its register+data writes are, in order, `0x80, 0x20, 0x01, 0x80, 0x40, 0x01,
0x80, 0x20`, every one of them to Control0 (0x07). -/
theorem mmc3416_init_register_writes {σ α : Type} [LinearOrderedField α]
    (signedChar : Bool) (bus : I2C σ) (hw : AcceptsWrites bus) (hr : ReportsReady bus)
    (fuel : Nat) (offset : Arr3 α) (d : mmc3416data α) (s : σ) :
    ∃ (s1 : σ) (log : List BusOp) (res : Arr3 α × mmc3416data α),
      mmc3416_init signedChar (logged bus) (fuel + 1) offset d (s, [])
          = some ((s1, log), Outcome.ret res) ∧
        registerWriteBytes log =
          [[MMC3416_CTL0_ADDR, 0x80], [MMC3416_CTL0_ADDR, 0x20], [MMC3416_CTL0_ADDR, 0x01],
           [MMC3416_CTL0_ADDR, 0x80], [MMC3416_CTL0_ADDR, 0x40], [MMC3416_CTL0_ADDR, 0x01],
           [MMC3416_CTL0_ADDR, 0x80], [MMC3416_CTL0_ADDR, 0x20]] := by
  simp only [mmc3416_init, mmc3416_set_logged bus hw, logged_delay, mmc3416_read_eq_read_raw]
  obtain ⟨s2, ops2, raw1, h2, hb2⟩ := read_raw_logged_ready signedChar bus hw hr fuel
    (bus.delay (bus.write (bus.delay (bus.write s [MMC3416_CTL0_ADDR, 0x80]).1 60)
      [MMC3416_CTL0_ADDR, 0x20]).1 10)
    ([] ++ [BusOp.write [MMC3416_CTL0_ADDR, 0x80] 2, BusOp.delay 60,
      BusOp.write [MMC3416_CTL0_ADDR, 0x20] 2] ++ [BusOp.delay 10])
  simp only [h2, Option.map_some', mmc3416_reset_logged bus hw, logged_delay]
  obtain ⟨s4, ops4, raw2, h4, hb4⟩ := read_raw_logged_ready signedChar bus hw hr fuel
    (bus.delay (bus.write (bus.delay (bus.write s2 [MMC3416_CTL0_ADDR, 0x80]).1 60)
      [MMC3416_CTL0_ADDR, 0x40]).1 10)
    ([] ++ [BusOp.write [MMC3416_CTL0_ADDR, 0x80] 2, BusOp.delay 60,
      BusOp.write [MMC3416_CTL0_ADDR, 0x20] 2] ++ [BusOp.delay 10] ++ ops2 ++
      [BusOp.write [MMC3416_CTL0_ADDR, 0x80] 2, BusOp.delay 60,
      BusOp.write [MMC3416_CTL0_ADDR, 0x40] 2] ++ [BusOp.delay 10])
  simp only [h4, Option.map_some', mmc3416_set_logged bus hw]
  refine ⟨_, _, _, rfl, ?_⟩
  simp only [registerWriteBytes_append, hb2, hb4]
  simp [registerWriteBytes]

/-- The stateless mock accepts every write. -/
theorem alwaysReady_accepts : AcceptsWrites alwaysReady := fun _ _ => rfl

/-- The stateless mock reports data-ready. -/
theorem alwaysReady_ready : ReportsReady alwaysReady :=
  fun _ => ⟨1, [], rfl, by decide⟩

/-- Witness for C16 on the stateless transport that accepts every write and always
delivers `0x01`. -/
theorem mmc3416_init_register_writes_witness :
    ∃ (s1 : Unit) (log : List BusOp) (res : Arr3 ℚ × mmc3416data ℚ),
      mmc3416_init false (logged alwaysReady) (0 + 1) (Arr3.mk 0 0 0) (mmc3416data.mk 0 0 0)
          ((), []) = some ((s1, log), Outcome.ret res) ∧
        registerWriteBytes log =
          [[MMC3416_CTL0_ADDR, 0x80], [MMC3416_CTL0_ADDR, 0x20], [MMC3416_CTL0_ADDR, 0x01],
           [MMC3416_CTL0_ADDR, 0x80], [MMC3416_CTL0_ADDR, 0x40], [MMC3416_CTL0_ADDR, 0x01],
           [MMC3416_CTL0_ADDR, 0x80], [MMC3416_CTL0_ADDR, 0x20]] :=
  mmc3416_init_register_writes false alwaysReady alwaysReady_accepts alwaysReady_ready 0
    (Arr3.mk 0 0 0) (mmc3416data.mk 0 0 0) ()

/-- A `write` on a logged transport. -/
theorem logged_write {σ : Type} (bus : I2C σ) (s : σ) (log : List BusOp)
    (bytes : List Nat) :
    (logged bus).write (s, log) bytes =
      (((bus.write s bytes).1, log ++ [BusOp.write bytes (bus.write s bytes).2]),
        (bus.write s bytes).2) := rfl

/-- A one-byte read on a logged transport: the call is logged, the byte and count are
those of the transport underneath. -/
theorem read_char_logged {σ : Type} (bus : I2C σ) (s : σ) (log : List BusOp) (c : Nat) :
    read_char (logged bus) (s, log) c =
      (((bus.read s 1).1, log ++ [BusOp.read 1 (bus.read s 1).2]),
        (read_char bus s c).2.1, (read_char bus s c).2.2) := by
  unfold read_char
  cases h : (bus.read s 1).2 with
  | nil =>
    have e : (logged bus).read (s, log) 1 = (((bus.read s 1).1, log ++ [BusOp.read 1 []]), []) := by
      simp [logged, h]
    have e2 : bus.read s 1 = ((bus.read s 1).1, []) := by rw [← h]
    rw [e, e2]
  | cons b rest =>
    have e : (logged bus).read (s, log) 1
        = (((bus.read s 1).1, log ++ [BusOp.read 1 (b :: rest)]), b :: rest) := by
      simp [logged, h]
    have e2 : bus.read s 1 = ((bus.read s 1).1, b :: rest) := by rw [← h]
    rw [e, e2]

set_option maxRecDepth 1000000 in
/-- The byte `set_cmfreq` builds for a mode in 0..3, as a mask formula, and its bits. -/
theorem cmfreq_regdata_formula : ∀ c : Fin 256, ∀ m : Fin 4,
    cmfreq_regdata c.val (m.val : Int) = (c.val &&& 0xD0) ||| 0x23 ||| (m.val <<< 2) ∧
      (cmfreq_regdata c.val (m.val : Int)).testBit 0 = true ∧
      (cmfreq_regdata c.val (m.val : Int)).testBit 1 = true ∧
      (cmfreq_regdata c.val (m.val : Int)).testBit 5 = true ∧
      (cmfreq_regdata c.val (m.val : Int)).testBit 4 = c.val.testBit 4 ∧
      (cmfreq_regdata c.val (m.val : Int)).testBit 6 = c.val.testBit 6 ∧
      (cmfreq_regdata c.val (m.val : Int)).testBit 7 = c.val.testBit 7 := by
  decide

/-- C17: on any transport with a call log, when the first read of Control0 delivers the
byte `c` and the mode `m` in 0..3 differs from `c`'s frequency mode, the one register
write of `set_cmfreq` carries the byte `(c & 0xD0) | 0x23 | (m << 2)` to Control0: bits
0, 1 and 5 are 1, bits 2-3 hold `m`, bits 4, 6 and 7 are those of `c`. -/
theorem set_cmfreq_written_byte {σ : Type} (bus : I2C σ) (s s1 s2 : σ) (c m : Nat)
    (hc : c < 256) (hm : m < 4) (hne : m ≠ freq_mode c)
    (h1 : bus.write s [MMC3416_CTL0_ADDR] = (s1, 1))
    (h2 : bus.read s1 1 = (s2, [c])) :
    registerWriteBytes (set_cmfreq (logged bus) (m : Int) (s, [])).1.2
        = [[MMC3416_CTL0_ADDR, (c &&& 0xD0) ||| 0x23 ||| (m <<< 2)]] ∧
      ((c &&& 0xD0) ||| 0x23 ||| (m <<< 2)).testBit 0 = true ∧
      ((c &&& 0xD0) ||| 0x23 ||| (m <<< 2)).testBit 1 = true ∧
      ((c &&& 0xD0) ||| 0x23 ||| (m <<< 2)).testBit 5 = true ∧
      freq_mode ((c &&& 0xD0) ||| 0x23 ||| (m <<< 2)) = m ∧
      ((c &&& 0xD0) ||| 0x23 ||| (m <<< 2)).testBit 4 = c.testBit 4 ∧
      ((c &&& 0xD0) ||| 0x23 ||| (m <<< 2)).testBit 6 = c.testBit 6 ∧
      ((c &&& 0xD0) ||| 0x23 ||| (m <<< 2)).testBit 7 = c.testBit 7 := by
  obtain ⟨hf, b0, b1, b5, b4, b6, b7⟩ := cmfreq_regdata_formula ⟨c, hc⟩ ⟨m, hm⟩
  obtain ⟨hmode, _⟩ := cmfreq_regdata_mode ⟨c, hc⟩ ⟨m, hm⟩
  simp only at hf b0 b1 b5 b4 b6 b7 hmode
  have hne1 : ¬ ((m : Int) = ((freq_mode c : Nat) : Int)) := by exact_mod_cast hne
  rw [← hf]
  refine ⟨?_, b0, b1, b5, hmode, b4, b6, b7⟩
  have hrc : read_char bus s1 0 = (s2, c, 1) := by
    simp [read_char, h2, Nat.mod_eq_of_lt hc]
  simp only [set_cmfreq, logged_write, read_char_logged, h1, h2, hrc, hne1, if_false, ne_eq,
    not_true_eq_false, List.nil_append]
  split_ifs <;> simp [registerWriteBytes, MMC3416_CTL0_ADDR]

/-- Witness for C17 on the scripted transport: Control0 reads `0x10` (mode 0, no-boost
set) and mode 2 is requested. -/
theorem set_cmfreq_written_byte_witness :
    registerWriteBytes (set_cmfreq (logged script) ((2 : Nat) : Int)
        ({ writes := [1, 2, 1], reads := [[0x10], [0x3B]], slept := 0 }, [])).1.2
        = [[MMC3416_CTL0_ADDR, (0x10 &&& 0xD0) ||| 0x23 ||| (2 <<< 2)]] ∧
      ((0x10 &&& 0xD0) ||| 0x23 ||| (2 <<< 2)).testBit 0 = true ∧
      ((0x10 &&& 0xD0) ||| 0x23 ||| (2 <<< 2)).testBit 1 = true ∧
      ((0x10 &&& 0xD0) ||| 0x23 ||| (2 <<< 2)).testBit 5 = true ∧
      freq_mode ((0x10 &&& 0xD0) ||| 0x23 ||| (2 <<< 2)) = 2 ∧
      ((0x10 &&& 0xD0) ||| 0x23 ||| (2 <<< 2)).testBit 4 = (0x10).testBit 4 ∧
      ((0x10 &&& 0xD0) ||| 0x23 ||| (2 <<< 2)).testBit 6 = (0x10).testBit 6 ∧
      ((0x10 &&& 0xD0) ||| 0x23 ||| (2 <<< 2)).testBit 7 = (0x10).testBit 7 :=
  set_cmfreq_written_byte script
    { writes := [1, 2, 1], reads := [[0x10], [0x3B]], slept := 0 }
    { writes := [2, 1], reads := [[0x10], [0x3B]], slept := 0 }
    { writes := [2, 1], reads := [[0x3B]], slept := 0 }
    0x10 2 (by decide) (by decide) (by decide) rfl rfl

/-- On the register-file model with a call log, when the Status register has bit 0 set,
`mmc3416_read` returns 0, its one register write carries `0x01` to Control0, and Control0
holds `0x01` afterwards, whatever it held before. -/
theorem mmc3416_read_regFile {α : Type} [LinearOrderedField α] (signedChar : Bool)
    (regs : Nat → Nat) (ptr fuel : Nat)
    (hready : (regs MMC3416_STATUS_ADDR % 256) &&& 0x01 = 1)
    (offset : Arr3 α) (d : mmc3416data α) :
    (mmc3416_read signedChar (logged regFile) (fuel + 1) offset d (⟨regs, ptr⟩, [])).map
        (fun res => (res.2.2, registerWriteBytes res.1.2, res.1.1.regs MMC3416_CTL0_ADDR))
      = some (0, [[MMC3416_CTL0_ADDR, 0x01]], 0x01) := by
  simp only [MMC3416_STATUS_ADDR] at hready
  simp [mmc3416_read, poll_status, read_char, read_buf, logged, regFile, MMC3416_CTL0_ADDR,
    MMC3416_STATUS_ADDR, MMC3416_XOUT_LSB_ADDR, List.range_succ, hready, registerWriteBytes]

/-- C13 (counterexample): on the register-file model with Control0 = `0x0E` (continuous
mode on, frequency mode 3) and Status ready, the byte `mmc3416_read` writes to Control0
is not `0x0E | 0x01` and the frequency mode decoded afterwards is not the one before. -/
theorem mmc3416_read_not_read_modify_write :
    ¬ ((mmc3416_read false (logged regFile) (0 + 1) (Arr3.mk 0 0 0)
          (mmc3416data.mk (0 : ℚ) 0 0)
          (⟨fun r => if r = MMC3416_STATUS_ADDR then 0x01 else 0x0E, 0⟩, [])).map
        (fun res => (res.2.2, registerWriteBytes res.1.2, res.1.1.regs MMC3416_CTL0_ADDR))
      = some (0, [[MMC3416_CTL0_ADDR, 0x0E ||| 0x01]], 0x0E ||| 0x01)) ∧
    ¬ ((mmc3416_read false (logged regFile) (0 + 1) (Arr3.mk 0 0 0)
          (mmc3416data.mk (0 : ℚ) 0 0)
          (⟨fun r => if r = MMC3416_STATUS_ADDR then 0x01 else 0x0E, 0⟩, [])).map
        (fun res => freq_mode (res.1.1.regs MMC3416_CTL0_ADDR))
      = some (freq_mode 0x0E)) := by
  have h := mmc3416_read_regFile false
    (fun r => if r = MMC3416_STATUS_ADDR then 0x01 else 0x0E) 0 0 (by decide)
    (Arr3.mk 0 0 0) (mmc3416data.mk (0 : ℚ) 0 0)
  cases hres : mmc3416_read false (logged regFile) (0 + 1) (Arr3.mk 0 0 0)
      (mmc3416data.mk (0 : ℚ) 0 0)
      (⟨fun r => if r = MMC3416_STATUS_ADDR then 0x01 else 0x0E, 0⟩, []) with
  | none => simp
  | some res =>
    rw [hres] at h
    simp only [Option.map_some', Option.some.injEq, Prod.mk.injEq] at h ⊢
    obtain ⟨_, hw, hc⟩ := h
    constructor
    · intro hcl
      rw [hw] at hcl
      exact absurd hcl.2.1 (by decide)
    · rw [hc]
      decide

/-- C13 (amended): on the register-file model, for every register image (so for every
byte `c` Control0 held) with Status ready, `mmc3416_read` returns 0 after one register
write that carries the constant `0x01` to Control0; Control0 then holds `0x01`, whose
continuous-enable bit, frequency mode and no-boost bit decode as 0. -/
theorem mmc3416_read_writes_constant {α : Type} [LinearOrderedField α] (signedChar : Bool)
    (regs : Nat → Nat) (ptr fuel : Nat)
    (hready : (regs MMC3416_STATUS_ADDR % 256) &&& 0x01 = 1)
    (offset : Arr3 α) (d : mmc3416data α) :
    (mmc3416_read signedChar (logged regFile) (fuel + 1) offset d (⟨regs, ptr⟩, [])).map
        (fun res => (res.2.2, registerWriteBytes res.1.2, res.1.1.regs MMC3416_CTL0_ADDR))
      = some (0, [[MMC3416_CTL0_ADDR, 0x01]], 0x01) ∧
    (0x01 >>> 1) &&& 0x01 = 0 ∧ freq_mode 0x01 = 0 ∧ (0x01 >>> 4) &&& 0x01 = 0 :=
  ⟨mmc3416_read_regFile signedChar regs ptr fuel hready offset d, by decide, by decide,
    by decide⟩

/-- Witness for C13 (amended): Control0 = `0x0E`, Status = `0x01`. -/
theorem mmc3416_read_writes_constant_witness :
    (mmc3416_read false (logged regFile) (0 + 1) (Arr3.mk 0 0 0)
          (mmc3416data.mk (0 : ℚ) 0 0)
          (⟨fun r => if r = MMC3416_STATUS_ADDR then 0x01 else 0x0E, 0⟩, [])).map
        (fun res => (res.2.2, registerWriteBytes res.1.2, res.1.1.regs MMC3416_CTL0_ADDR))
      = some (0, [[MMC3416_CTL0_ADDR, 0x01]], 0x01) ∧
    (0x01 >>> 1) &&& 0x01 = 0 ∧ freq_mode 0x01 = 0 ∧ (0x01 >>> 4) &&& 0x01 = 0 :=
  mmc3416_read_writes_constant false
    (fun r => if r = MMC3416_STATUS_ADDR then 0x01 else 0x0E) 0 0 (by decide)
    (Arr3.mk 0 0 0) (mmc3416data.mk (0 : ℚ) 0 0)

/-- C14 (the code at the failing inputs): `-l 7.73` leaves the declination 7, not 7.73,
and `-l 30.5` is accepted with the declination 30: the argument goes through `atoi`. -/
theorem parse_declination_truncates :
    (parse_declination ['7', '.', '7', '3'] : Outcome ℚ) = Outcome.ret 7 ∧
      (7 : ℚ) ≠ 7.73 ∧
      (parse_declination ['3', '0', '.', '5'] : Outcome ℚ) = Outcome.ret 30 ∧
      (30.5 : ℚ) > 30.0 := by
  refine ⟨?_, by norm_num, ?_, by norm_num⟩
  · simp [parse_declination, show atoi ['7', '.', '7', '3'] = 7 by decide]
    norm_num
  · simp [parse_declination, show atoi ['3', '0', '.', '5'] = 30 by decide]
    norm_num

set_option maxRecDepth 1000000 in
/-- For a mode outside 0..3 the byte `set_cmfreq` builds only sets bits 0, 1 and 5. -/
theorem lor_0x23 : ∀ c : Fin 256,
    (((c.val ||| (1 <<< 0)) ||| (1 <<< 1)) ||| (1 <<< 5)) = c.val ||| 0x23 ∧
      freq_mode (c.val ||| 0x23) = freq_mode c.val ∧ (c.val ||| 0x23) % 256 = c.val ||| 0x23 := by
  decide

/-- For a mode outside 0..3 none of the four mode branches of `set_cmfreq` runs. -/
theorem cmfreq_regdata_invalid (c : Nat) (hc : c < 256) (new_mode : Int)
    (hbad : new_mode < 0 ∨ 3 < new_mode) :
    cmfreq_regdata c new_mode = c ||| 0x23 := by
  have h0 : ¬ new_mode = 0 := by omega
  have h1 : ¬ new_mode = 1 := by omega
  have h2 : ¬ new_mode = 2 := by omega
  have h3 : ¬ new_mode = 3 := by omega
  simp only [cmfreq_regdata, if_neg h0, if_neg h1, if_neg h2, if_neg h3]
  exact (lor_0x23 ⟨c, hc⟩).1

/-- A mode outside 0..3 differs from every decoded frequency mode. -/
theorem invalid_mode_ne_freq_mode (new_mode : Int) (hbad : new_mode < 0 ∨ 3 < new_mode)
    (b : Nat) : ¬ (new_mode = ((freq_mode b : Nat) : Int)) := by
  have := freq_mode_lt b
  omega

/-- On the register-file model with a call log, `set_cmfreq` with a mode outside 0..3
writes `c | 0x23` to Control0 and returns -1. -/
theorem set_cmfreq_invalid_regFile (new_mode : Int) (hbad : new_mode < 0 ∨ 3 < new_mode)
    (c : Nat) (hc : c < 256) (regs : Nat → Nat) (ptr : Nat)
    (hregs : regs MMC3416_CTL0_ADDR = c) :
    (set_cmfreq (logged regFile) new_mode (⟨regs, ptr⟩, [])).2 = Outcome.ret (-1) ∧
      registerWriteBytes (set_cmfreq (logged regFile) new_mode (⟨regs, ptr⟩, [])).1.2
        = [[MMC3416_CTL0_ADDR, c ||| 0x23]] ∧
      (set_cmfreq (logged regFile) new_mode (⟨regs, ptr⟩, [])).1.1.regs MMC3416_CTL0_ADDR
        = c ||| 0x23 := by
  simp only [MMC3416_CTL0_ADDR] at hregs
  have hw := cmfreq_regdata_invalid c hc new_mode hbad
  have hn1 := invalid_mode_ne_freq_mode new_mode hbad c
  have hn2 := invalid_mode_ne_freq_mode new_mode hbad (c ||| 0x23)
  have hmod := (lor_0x23 ⟨c, hc⟩).2.2
  simp only at hmod
  simp [set_cmfreq, logged, regFile, read_char, MMC3416_CTL0_ADDR, List.range_succ, hregs,
    Nat.mod_eq_of_lt hc, hw, hn1, hn2, hmod, registerWriteBytes]

/-- C20 (counterexample): on the register-file model with Control0 = `0x00`,
`set_cmfreq(5)` does not leave the bus without a register write and Control0 at `0x00`:
it writes `0x23` to Control0 before it returns -1. -/
theorem set_cmfreq_invalid_mode_writes :
    ¬ ((set_cmfreq (logged regFile) 5 (⟨fun _ => 0x00, 0⟩, [])).2 = Outcome.ret (-1) ∧
        registerWrites (set_cmfreq (logged regFile) 5 (⟨fun _ => 0x00, 0⟩, [])).1.2 = 0 ∧
        (set_cmfreq (logged regFile) 5
          (⟨fun _ => 0x00, 0⟩, [])).1.1.regs MMC3416_CTL0_ADDR = 0x00) := by
  have h := (set_cmfreq_invalid_regFile 5 (by decide) 0x00 (by decide) (fun _ => 0x00) 0
    rfl).2.2
  intro hcl
  rw [h] at hcl
  exact absurd hcl.2.2 (by decide)

/-- C20 (amended): for every `new_mode` outside 0..3 and every Control0 byte `c`, on the
register-file model `set_cmfreq` returns -1 after one register write that carries
`c | 0x23` to Control0, which then holds `c | 0x23` (frequency mode unchanged); and the
case `'c'` of `parseargs` only lets a mode in 0..3 through. -/
theorem set_cmfreq_invalid_mode (new_mode : Int) (hbad : new_mode < 0 ∨ 3 < new_mode)
    (c : Nat) (hc : c < 256) (regs : Nat → Nat) (ptr : Nat)
    (hregs : regs MMC3416_CTL0_ADDR = c) :
    (set_cmfreq (logged regFile) new_mode (⟨regs, ptr⟩, [])).2 = Outcome.ret (-1) ∧
      registerWriteBytes (set_cmfreq (logged regFile) new_mode (⟨regs, ptr⟩, [])).1.2
        = [[MMC3416_CTL0_ADDR, c ||| 0x23]] ∧
      (set_cmfreq (logged regFile) new_mode (⟨regs, ptr⟩, [])).1.1.regs MMC3416_CTL0_ADDR
        = c ||| 0x23 ∧
      freq_mode (c ||| 0x23) = freq_mode c ∧
      (∀ (optarg : List Char) (m : Int),
        parse_cmfreq optarg = Outcome.ret m → 0 ≤ m ∧ m ≤ 3) := by
  obtain ⟨h1, h2, h3⟩ := set_cmfreq_invalid_regFile new_mode hbad c hc regs ptr hregs
  refine ⟨h1, h2, h3, (lor_0x23 ⟨c, hc⟩).2.1, ?_⟩
  intro optarg m hm
  by_cases hlen : optarg.length > 1
  · simp [parse_cmfreq, hlen] at hm
  · by_cases hrange : atoi optarg < 0 ∨ atoi optarg > 3
    · simp [parse_cmfreq, hlen, hrange] at hm
    · simp only [parse_cmfreq, if_neg hlen, if_neg hrange, Outcome.ret.injEq] at hm
      omega

/-- Witness for C20 (amended): mode 5 with Control0 = `0x00`. -/
theorem set_cmfreq_invalid_mode_witness :
    (set_cmfreq (logged regFile) 5 (⟨fun _ => 0x00, 0⟩, [])).2 = Outcome.ret (-1) ∧
      registerWriteBytes (set_cmfreq (logged regFile) 5 (⟨fun _ => 0x00, 0⟩, [])).1.2
        = [[MMC3416_CTL0_ADDR, 0x00 ||| 0x23]] ∧
      (set_cmfreq (logged regFile) 5 (⟨fun _ => 0x00, 0⟩, [])).1.1.regs MMC3416_CTL0_ADDR
        = 0x00 ||| 0x23 ∧
      freq_mode (0x00 ||| 0x23) = freq_mode 0x00 ∧
      (∀ (optarg : List Char) (m : Int),
        parse_cmfreq optarg = Outcome.ret m → 0 ≤ m ∧ m ≤ 3) :=
  set_cmfreq_invalid_mode 5 (by decide) 0x00 (by decide) (fun _ => 0x00) 0 rfl

/-- A write on the scripted transport whose write script is used up. -/
theorem script_write_accept (reads : List (List Nat)) (slept : Nat) (bytes : List Nat) :
    script.write ⟨[], reads, slept⟩ bytes = (⟨[], reads, slept⟩, (bytes.length : Int)) := rfl

/-- A read on the scripted transport delivers the next scripted bytes. -/
theorem script_read_cons (writes : List Int) (r : List Nat) (reads : List (List Nat))
    (slept len : Nat) :
    script.read ⟨writes, r :: reads, slept⟩ len = (⟨writes, reads, slept⟩, r) := rfl

/-- A sleep on the scripted transport. -/
theorem script_delay (writes : List Int) (reads : List (List Nat)) (slept msec : Nat) :
    script.delay ⟨writes, reads, slept⟩ msec = ⟨writes, reads, slept + msec⟩ := rfl

/-- One poll on the scripted transport with a call log. -/
theorem poll_status_script_step (k regdata b : Nat) (reads : List (List Nat)) (slept : Nat)
    (log : List BusOp) :
    poll_status (logged script) (k + 1) regdata (⟨[], [b] :: reads, slept⟩, log) =
      if (b % 256) &&& 0x01 = 1 then
        some (⟨[], reads, slept⟩,
          log ++ [BusOp.write [MMC3416_STATUS_ADDR] 1, BusOp.read 1 [b]])
      else
        poll_status (logged script) k (b % 256)
          (⟨[], reads, slept + 10⟩,
            log ++ [BusOp.write [MMC3416_STATUS_ADDR] 1, BusOp.read 1 [b], BusOp.delay 10]) := by
  have hrc : read_char script ⟨[], [b] :: reads, slept⟩ regdata
      = (⟨[], reads, slept⟩, b % 256, 1) := rfl
  rw [poll_status]
  simp only [logged_write, script_write_accept, read_char_logged, script_read_cons, hrc,
    logged_delay, script_delay, List.length_singleton, Nat.cast_one,
    List.append_assoc, List.singleton_append, List.cons_append, List.nil_append]

/-- On the scripted transport with a call log, the poll loop consumes the status bytes
that are not ready, sleeping 10 ms after each, and stops at the first ready one. -/
theorem poll_status_script (notReady : List Nat)
    (hnr : ∀ b ∈ notReady, ¬ ((b % 256) &&& 0x01 = 1)) (r : Nat)
    (hr : (r % 256) &&& 0x01 = 1) (rest : List (List Nat)) :
    ∀ (fuel : Nat), notReady.length < fuel → ∀ (regdata slept : Nat) (log : List BusOp),
      poll_status (logged script) fuel regdata
          (⟨[], notReady.map (fun b => [b]) ++ [r] :: rest, slept⟩, log)
        = some (⟨[], rest, slept + 10 * notReady.length⟩,
            log ++ (notReadyPolls notReady ++
              [BusOp.write [MMC3416_STATUS_ADDR] 1, BusOp.read 1 [r]])) := by
  induction notReady with
  | nil =>
    intro fuel hf regdata slept log
    obtain ⟨k, rfl⟩ : ∃ k, fuel = k + 1 := ⟨fuel - 1, by simp at hf; omega⟩
    simp only [List.map_nil, List.nil_append, poll_status_script_step, if_pos hr,
      notReadyPolls, List.length_nil, Nat.mul_zero, Nat.add_zero]
  | cons b bs ih =>
    intro fuel hf regdata slept log
    obtain ⟨k, rfl⟩ : ∃ k, fuel = k + 1 := ⟨fuel - 1, by simp at hf; omega⟩
    have hb : ¬ ((b % 256) &&& 0x01 = 1) := hnr b (by simp)
    have hk : bs.length < k := by simp at hf; omega
    have ih1 := ih (fun x hx => hnr x (by simp [hx])) k hk (b % 256) (slept + 10)
      (log ++ [BusOp.write [MMC3416_STATUS_ADDR] 1, BusOp.read 1 [b], BusOp.delay 10])
    simp only [List.map_cons, List.cons_append, poll_status_script_step, if_neg hb, ih1]
    simp [notReadyPolls, Nat.mul_add, Nat.add_assoc]
    omega

/-- The sleeps and Status selects among the polls that are not ready. -/
theorem notReadyPolls_counts (notReady : List Nat) :
    (notReadyPolls notReady).count (BusOp.delay 10) = notReady.length ∧
      (notReadyPolls notReady).count (BusOp.write [MMC3416_STATUS_ADDR] 1) = notReady.length ∧
      (notReadyPolls notReady).countP
        (fun op => match op with | BusOp.read 6 _ => true | _ => false) = 0 := by
  induction notReady with
  | nil => simp [notReadyPolls]
  | cons b bs ih =>
    obtain ⟨h1, h2, h3⟩ := ih
    simp [notReadyPolls, List.count_cons, List.countP_cons, h1, h2, h3]

/-- C18: on the scripted transport with a call log, when the Status register reads not
ready (bit 0 clear) `notReady.length` times and then ready, so first ready on poll
`n = notReady.length + 1`, and the fuel allows `n` polls, `mmc3416_read` returns 0: after
the measurement request it polls Status `n` times with a 10 ms sleep after each of the
`n - 1` polls that are not ready, then selects register `0x00` and makes one read of 6
bytes (registers `0x00..0x05`). -/
theorem mmc3416_read_polls_until_ready {α : Type} [LinearOrderedField α] (signedChar : Bool)
    (notReady : List Nat) (hnr : ∀ b ∈ notReady, ¬ ((b % 256) &&& 0x01 = 1)) (r : Nat)
    (hr : (r % 256) &&& 0x01 = 1) (frame : List Nat) (rest : List (List Nat))
    (fuel : Nat) (hfuel : notReady.length < fuel) (slept : Nat)
    (offset : Arr3 α) (d : mmc3416data α) :
    (mmc3416_read signedChar (logged script) fuel offset d
        (⟨[], notReady.map (fun b => [b]) ++ [r] :: frame :: rest, slept⟩, [])).map
        (fun res => (res.1, res.2.2))
      = some ((⟨[], rest, slept + 10 * notReady.length⟩,
          BusOp.write [MMC3416_CTL0_ADDR, 0x01] 2 ::
            (notReadyPolls notReady ++
              [BusOp.write [MMC3416_STATUS_ADDR] 1, BusOp.read 1 [r],
               BusOp.write [MMC3416_XOUT_LSB_ADDR] 1, BusOp.read 6 frame])), 0) ∧
      (notReadyPolls notReady ++
          [BusOp.write [MMC3416_STATUS_ADDR] 1, BusOp.read 1 [r],
           BusOp.write [MMC3416_XOUT_LSB_ADDR] 1, BusOp.read 6 frame]).count
          (BusOp.write [MMC3416_STATUS_ADDR] 1) = notReady.length + 1 ∧
      (notReadyPolls notReady ++
          [BusOp.write [MMC3416_STATUS_ADDR] 1, BusOp.read 1 [r],
           BusOp.write [MMC3416_XOUT_LSB_ADDR] 1, BusOp.read 6 frame]).count
          (BusOp.delay 10) = notReady.length ∧
      (notReadyPolls notReady ++
          [BusOp.write [MMC3416_STATUS_ADDR] 1, BusOp.read 1 [r],
           BusOp.write [MMC3416_XOUT_LSB_ADDR] 1, BusOp.read 6 frame]).countP
          (fun op => match op with | BusOp.read 6 _ => true | _ => false) = 1 := by
  obtain ⟨c1, c2, c3⟩ := notReadyPolls_counts notReady
  refine ⟨?_, ?_, ?_, ?_⟩
  · have hp := poll_status_script notReady hnr r hr (frame :: rest) fuel hfuel 0 slept
      [BusOp.write [MMC3416_CTL0_ADDR, 0x01] 2]
    have e1 : (logged script).write
        (⟨[], notReady.map (fun b => [b]) ++ [r] :: frame :: rest, slept⟩, [])
        [MMC3416_CTL0_ADDR, 0x01]
        = ((⟨[], notReady.map (fun b => [b]) ++ [r] :: frame :: rest, slept⟩,
            [BusOp.write [MMC3416_CTL0_ADDR, 0x01] 2]), 2) := rfl
    have e3 : ∀ (sl : Nat) (log : List BusOp),
        (logged script).write (⟨[], frame :: rest, sl⟩, log) [MMC3416_XOUT_LSB_ADDR]
        = ((⟨[], frame :: rest, sl⟩, log ++ [BusOp.write [MMC3416_XOUT_LSB_ADDR] 1]), 1) :=
      fun _ _ => rfl
    have e4 : ∀ (sl : Nat) (log : List BusOp),
        (read_buf (logged script) (⟨[], frame :: rest, sl⟩, log) [0, 0, 0, 0, 0, 0] 6).1
        = (⟨[], rest, sl⟩, log ++ [BusOp.read 6 frame]) := fun _ _ => rfl
    rw [mmc3416_read]
    simp only [e1, hp, e3, ne_eq, not_true_eq_false, if_false, Option.map_some', e4]
    simp
  · rw [List.count_append, c2]
    simp [List.count_cons, MMC3416_STATUS_ADDR, MMC3416_XOUT_LSB_ADDR]
  · simp [List.count_append, List.count_cons, c1]
  · simp [List.countP_append, List.countP_cons, c3]

/-- Witness for C18: Status reads `0x00`, `0x00`, then `0x01` (first ready on poll 3),
and the burst read delivers `00 08 00 00 00 00`. -/
theorem mmc3416_read_polls_until_ready_witness :
    (mmc3416_read false (logged script) 3 (Arr3.mk 0 0 0) (mmc3416data.mk (0 : ℚ) 0 0)
        (⟨[], [0x00, 0x00].map (fun b => [b]) ++ [0x01] :: [0x00, 0x08, 0, 0, 0, 0] :: [],
          0⟩, [])).map
        (fun res => (res.1, res.2.2))
      = some ((⟨[], [], 0 + 10 * [0x00, 0x00].length⟩,
          BusOp.write [MMC3416_CTL0_ADDR, 0x01] 2 ::
            (notReadyPolls [0x00, 0x00] ++
              [BusOp.write [MMC3416_STATUS_ADDR] 1, BusOp.read 1 [0x01],
               BusOp.write [MMC3416_XOUT_LSB_ADDR] 1,
               BusOp.read 6 [0x00, 0x08, 0, 0, 0, 0]])), 0) ∧
      (notReadyPolls [0x00, 0x00] ++
          [BusOp.write [MMC3416_STATUS_ADDR] 1, BusOp.read 1 [0x01],
           BusOp.write [MMC3416_XOUT_LSB_ADDR] 1,
           BusOp.read 6 [0x00, 0x08, 0, 0, 0, 0]]).count
          (BusOp.write [MMC3416_STATUS_ADDR] 1) = [0x00, 0x00].length + 1 ∧
      (notReadyPolls [0x00, 0x00] ++
          [BusOp.write [MMC3416_STATUS_ADDR] 1, BusOp.read 1 [0x01],
           BusOp.write [MMC3416_XOUT_LSB_ADDR] 1,
           BusOp.read 6 [0x00, 0x08, 0, 0, 0, 0]]).count
          (BusOp.delay 10) = [0x00, 0x00].length ∧
      (notReadyPolls [0x00, 0x00] ++
          [BusOp.write [MMC3416_STATUS_ADDR] 1, BusOp.read 1 [0x01],
           BusOp.write [MMC3416_XOUT_LSB_ADDR] 1,
           BusOp.read 6 [0x00, 0x08, 0, 0, 0, 0]]).countP
          (fun op => match op with | BusOp.read 6 _ => true | _ => false) = 1 :=
  mmc3416_read_polls_until_ready false [0x00, 0x00] (by decide) 0x01 (by decide)
    [0x00, 0x08, 0, 0, 0, 0] [] 3 (by decide) 0 (Arr3.mk 0 0 0) (mmc3416data.mk 0 0 0)

/-! ### `mmc3416_dump` -/

/-- What `read_at` returns: the count is at most `len`, and a buffer that is returned
keeps its length. -/
theorem read_at_spec {σ : Type} (bus : I2C σ) (s : σ) (buf : List Nat) (i len : Nat) :
    (read_at bus s buf i len).2.2 ≤ len ∧
      (∀ buf1, (read_at bus s buf i len).2.1 = some buf1 →
        buf1.length = buf.length ∧ i + (read_at bus s buf i len).2.2 ≤ buf.length) ∧
      ((read_at bus s buf i len).2.1 = none → buf.length < i + (read_at bus s buf i len).2.2) := by
  unfold read_at
  rcases hg : bus.read s len with ⟨s1, got⟩
  simp only
  generalize hb : (got.take len).map (fun b => b % 256) = bytes
  have hlen : bytes.length ≤ len := by
    rw [← hb]
    simp only [List.length_map, List.length_take]
    omega
  by_cases h : i + bytes.length ≤ buf.length
  · simp only [h, if_true]
    refine ⟨hlen, ?_, by simp⟩
    intro buf1 hb1
    simp only [Option.some.injEq] at hb1
    subst hb1
    refine ⟨?_, by first | exact h | trivial⟩
    simp only [List.length_append, List.length_take, List.length_drop]
    omega
  · simp only [h, if_false]
    refine ⟨hlen, by simp, ?_⟩
    intro _
    omega

/-- The second iteration of the first read loop of `mmc3416_dump` (`i = 1`, 9 bytes
requested into a 9-byte buffer) never completes: the register select fails, or the read
stores past the end of the buffer, or it delivers fewer than 9 bytes. -/
theorem dump_loop_second_iteration {σ : Type} (bus : I2C σ) (k reg : Nat) (buf : List Nat)
    (hbuf : buf.length = 9) (s : σ) :
    ∃ r, (dump_loop bus 9 (k + 1) 1 reg buf s).2 = Except.error r ∧ r.isPrinted = false := by
  rw [dump_loop]
  by_cases hn : (bus.write s [reg]).2 = 1
  · simp only [hn, ne_eq, not_true_eq_false, if_false]
    obtain ⟨hle, hsome, hnone⟩ := read_at_spec bus (bus.write s [reg]).1 buf 1 9
    cases hr : (read_at bus (bus.write s [reg]).1 buf 1 9).2.1 with
    | none =>
      refine ⟨DumpResult.overrun buf.length 1 (read_at bus (bus.write s [reg]).1 buf 1 9).2.2,
        ?_, rfl⟩
      have e : read_at bus (bus.write s [reg]).1 buf 1 9
          = ((read_at bus (bus.write s [reg]).1 buf 1 9).1, none,
              (read_at bus (bus.write s [reg]).1 buf 1 9).2.2) := by
        rw [← hr]
      rw [e]
    | some buf1 =>
      have hc := (hsome buf1 hr).2
      have hne : (read_at bus (bus.write s [reg]).1 buf 1 9).2.2 ≠ 9 := by omega
      refine ⟨DumpResult.exit (-1), ?_, rfl⟩
      have e : read_at bus (bus.write s [reg]).1 buf 1 9
          = ((read_at bus (bus.write s [reg]).1 buf 1 9).1, some buf1,
              (read_at bus (bus.write s [reg]).1 buf 1 9).2.2) := by
        rw [← hr]
      rw [e]
      simp only [hne, ne_eq, not_false_eq_true, if_true]
  · exact ⟨DumpResult.exit (-1), by simp [hn], rfl⟩

/-- The first read loop of `mmc3416_dump` never completes. -/
theorem dump_loop_first_never_ok {σ : Type} (bus : I2C σ) (s : σ) :
    ∃ r, (dump_loop bus 9 9 0 0x00 (List.replicate 9 0) s).2 = Except.error r ∧
      r.isPrinted = false := by
  rw [dump_loop]
  by_cases hn : (bus.write s [0x00]).2 = 1
  · simp only [hn, ne_eq, not_true_eq_false, if_false]
    obtain ⟨hle, hsome, hnone⟩ :=
      read_at_spec bus (bus.write s [0x00]).1 (List.replicate 9 0) 0 9
    cases hr : (read_at bus (bus.write s [0x00]).1 (List.replicate 9 0) 0 9).2.1 with
    | none =>
      have h1 := hnone hr
      simp only [List.length_replicate] at h1
      omega
    | some buf1 =>
      have hlen := (hsome buf1 hr).1
      have e : read_at bus (bus.write s [0x00]).1 (List.replicate 9 0) 0 9
          = ((read_at bus (bus.write s [0x00]).1 (List.replicate 9 0) 0 9).1, some buf1,
              (read_at bus (bus.write s [0x00]).1 (List.replicate 9 0) 0 9).2.2) := by
        rw [← hr]
      rw [e]
      by_cases hc : (read_at bus (bus.write s [0x00]).1 (List.replicate 9 0) 0 9).2.2 = 9
      · simp only [hc, ne_eq, not_true_eq_false, if_false]
        exact dump_loop_second_iteration bus 7 (0x00 + 1) buf1
          (by simpa only [List.length_replicate] using hlen) _
      · exact ⟨DumpResult.exit (-1),
          by simp only [hc, ne_eq, not_false_eq_true, if_true], rfl⟩
  · exact ⟨DumpResult.exit (-1), by simp only [hn, ne_eq, not_false_eq_true, if_true], rfl⟩

/-- C15 (the code on every transport): `mmc3416_dump` never gets to print its tables. For
every transport and device state the run ends in the first read loop, with `exit(-1)` or,
when the device delivers the 9 bytes requested, with a store past the end of the 9-byte
buffer (iteration `i = 1` stores 9 bytes from `buf1[1]` on). And where plain `char` is
signed the `%02X` field of a byte `0x80` has eight digits. -/
theorem mmc3416_dump_never_prints {σ : Type} (signedChar : Bool) (bus : I2C σ) (s : σ) :
    (mmc3416_dump signedChar bus s).2.isPrinted = false ∧
      fmt_02X true 0x80 = ['F', 'F', 'F', 'F', 'F', 'F', '8', '0'] ∧
      fmt_02X false 0x80 = ['8', '0'] := by
  refine ⟨?_, by decide, by decide⟩
  obtain ⟨r, hr, hp⟩ := dump_loop_first_never_ok bus s
  have e : dump_loop bus 9 9 0 0x00 (List.replicate 9 0) s
      = ((dump_loop bus 9 9 0 0x00 (List.replicate 9 0) s).1, Except.error r) := by
    rw [← hr]
  rw [mmc3416_dump, e]
  exact hp

/-- C19 (the code at the failing input): on the register-file transport, which delivers
the 9 bytes each read asks for, `mmc3416_dump` ends in iteration `i = 1` of the first
loop: `read(i2cfd, &buf1[1], 9)` stores 9 bytes from element 1 of the 9-element buffer,
one byte past its end. -/
theorem mmc3416_dump_overruns_buf1 (signedChar : Bool) (regs : Nat → Nat) (ptr : Nat) :
    (mmc3416_dump signedChar regFile ⟨regs, ptr⟩).2 = DumpResult.overrun 9 1 9 := by
  simp [mmc3416_dump, dump_loop, read_at, regFile, List.range_succ]

set_option maxRecDepth 1000000 in
/-- The macro `BYTE_TO_BINARY` gives eight characters, and character `k` from the left is
`'1'` exactly when bit `7 - k` of the byte is set. -/
theorem BYTE_TO_BINARY_bits : ∀ b : Fin 256, ∀ k : Fin 8,
    (BYTE_TO_BINARY b.val).length = 8 ∧
      ((BYTE_TO_BINARY b.val).getD k.val '0' = '1' ↔ b.val.testBit (7 - k.val) = true) := by
  decide

/-! ### Debug loop of `mmc3416_read` -/

/-- C21 (the code at the failing input): with `verbose == 1` the debug loop of
`mmc3416_read` runs `i` up to 6 and reads `measure[6]`, one element past the end of the
6-byte buffer, for every buffer content; with any other `verbose` the loop reads nothing,
and the reassembly only uses the indices `0..5`. -/
theorem debug_loop_reads_measure_6 (b0 b1 b2 b3 b4 b5 reg : Nat) :
    debug_loop 1 reg [b0, b1, b2, b3, b4, b5] = Except.error 6 ∧
      6 ∈ debug_loop_indices 1 ∧
      ¬ (∀ i ∈ debug_loop_indices 1 ++ reassembly_indices, i < 6) ∧
      (∀ verbose : Int, verbose ≠ 1 →
        debug_loop verbose reg [b0, b1, b2, b3, b4, b5] = Except.ok [] ∧
          ∀ i ∈ debug_loop_indices verbose ++ reassembly_indices, i < 6) := by
  refine ⟨by simp [debug_loop, List.range_succ], by decide, by decide, ?_⟩
  intro verbose hv
  refine ⟨by simp [debug_loop, List.range_succ, hv], ?_⟩
  intro i hi
  simp [debug_loop_indices, reassembly_indices, hv] at hi
  omega

end MMC3416
